import Mathlib

/-!
Verification of the Mini-Shell command execution engine (src/cmd.c).

This file gives a shallow embedding of the execution engine of the
repository: the data model (words, simple commands, command trees), the
redirection manager (`redirect`), the simple-command executor
(`parse_simple` with the `cd` / `exit` / assignment / external paths), and
the process orchestrator (`run_in_parallel`, `run_on_pipe`) together with
the recursive tree evaluator (`parse_command`).

Modelling conventions:
* File descriptors are integers; a process fd table is an association
  list from descriptors to open-file descriptions (`Desc`).  `open`
  allocates the lowest free nonnegative descriptor, as POSIX does.
  Each successful `open` yields a fresh description identity
  (a counter), so reopening a file is distinguishable from duplicating
  an already-open descriptor.
* External collaborators (the word resolver `get_word` / `get_argv`,
  `getenv`, `chdir`, `getcwd`, `realpath`, `putenv`, program execution,
  and fork / pipe success) are parameters collected in an `Oracle`.
  The engine treats their outputs as opaque values, as the spec states.
* `fork` + child evaluation + `waitpid` are simulated in-line: the child
  runs on a copy of the parent process state, and the parent observes
  `WEXITSTATUS` of the child exit code, i.e. the code modulo 256.
  Fork and pipe outcomes are drawn from oracle sequences indexed by
  counters threaded in evaluation order (a fixed schedule of the
  concurrent branches; the claims under study do not depend on
  interleaving).
* Side effects that escape the process (file opens, writes, waits,
  chdir, putenv) are recorded in a global event trace.
* `open` on the modelled paths always succeeds; the spec marks the
  unopenable-target path as unspecified behaviour that is out of scope.
* Memory management (`free`) has no observable counterpart and is not
  modelled.
-/

namespace MiniShell

/-- Open mode of a file description, from the flags used in `redirect`:
`O_RDONLY` for inputs and `O_WRONLY | O_CREAT` plus either `O_TRUNC`
(`IO_REGULAR`) or `O_APPEND` for outputs and errors. -/
inductive FMode where
  | readOnly
  | writeTrunc
  | writeAppend
deriving DecidableEq, Repr

/-- An open-file description: either one of the three standard streams
inherited by the shell, a description created by `open` (with a unique
identity, the path and the open mode), or one end of an anonymous pipe. -/
inductive Desc where
  | std (n : Nat)
  | file (id : Nat) (path : String) (mode : FMode)
  | pipeEnd (id : Nat) (writeEnd : Bool)
deriving DecidableEq, Repr

/-- Observable events of an execution: file opens, writes to a stream,
`chdir`, `putenv`, `execvp`, and `waitpid` on a child. -/
inductive Ev where
  | openRead (path : String)
  | openWrite (path : String) (trunc : Bool)
  | writeEv (target : Option Desc) (s : String)
  | chdirEv (path : String)
  | putenvEv (s : String)
  | execEv (name : String) (argv : List String)
  | waitEv (pid : Nat)
deriving DecidableEq, Repr

/-- A `word_t`: a part string plus an optional continuation part
(`next_part`).  The `next_word` chaining of the C struct is represented
by the `List Word` fields of `SimpleCommand`. -/
inductive Word where
  | mk (string : String) (next_part : Option Word)

/-- The part string of a word (`w->string`). -/
def Word.string : Word → String
  | .mk s _ => s

/-- The continuation part of a word (`w->next_part`). -/
def Word.next_part : Word → Option Word
  | .mk _ n => n

/-- Equality of words is decidable (the automatic derivation does not
handle the nested `Option`). -/
def Word.deq : (a b : Word) → Decidable (a = b)
  | .mk s1 none, .mk s2 none =>
    if h : s1 = s2 then isTrue (by rw [h])
    else isFalse (fun hh => by injection hh with h1 h2; exact h h1)
  | .mk _ none, .mk _ (some _) =>
    isFalse (fun hh => by injection hh with h1 h2; exact Option.noConfusion h2)
  | .mk _ (some _), .mk _ none =>
    isFalse (fun hh => by injection hh with h1 h2; exact Option.noConfusion h2)
  | .mk s1 (some w1), .mk s2 (some w2) =>
    match Word.deq w1 w2, String.decEq s1 s2 with
    | isTrue hw, isTrue hs => isTrue (by rw [hs, hw])
    | isFalse hw, _ =>
      isFalse (fun hh => by
        injection hh with h1 h2
        injection h2 with h3
        exact hw h3)
    | _, isFalse hs => isFalse (fun hh => by injection hh with h1 h2; exact hs h1)

instance : DecidableEq Word := Word.deq

/-- Modelled from the spec: the `io_flags` enum of `cmd.h` (which is not
under `src/`).  The engine only tests `io_flags == IO_REGULAR`, choosing
`O_TRUNC` for `regular` and `O_APPEND` otherwise. -/
inductive IoFlags where
  | regular
  | outAppend
  | errAppend
deriving DecidableEq, Repr

/-- A `simple_command_t`: verb, parameter words, and the three
redirection lists with the append/truncate flag. -/
structure SimpleCommand where
  verb : Word
  params : List Word
  inL : List Word
  outL : List Word
  errL : List Word
  io_flags : IoFlags

/-- Operator of an internal `command_t` node (`OP_NONE` is represented
by the `Command.simple` constructor below). -/
inductive Op where
  | sequential
  | parallel
  | condNZero
  | condZero
  | pipeOp
deriving DecidableEq, Repr

/-- A `command_t` tree: a leaf holding a (possibly NULL) simple command,
or an internal node with an operator and two children. -/
inductive Command where
  | simple (scmd : Option SimpleCommand)
  | compound (op : Op) (cmd1 cmd2 : Command)

/-- Result of evaluating a command in a given process: `ret v` is a
normal return of status `v` to the caller; `exited v` means the process
called `exit(v)` (the `exit`/`quit` built-in), which unwinds the whole
enclosing process. -/
inductive PRes where
  | ret (v : Int)
  | exited (v : Int)
deriving DecidableEq, Repr

/-- The exit code a child process delivers: its return value if the
evaluation returned, or the argument of `exit` if it exited. -/
def presCode : PRes → Int
  | .ret v => v
  | .exited v => v

/-- Modelled from the spec: the `SHELL_EXIT` sentinel of `cmd.h` (not
under `src/`), a distinguished value outside the `[0,255]` status space
signalling that the enclosing read-eval-print loop should stop. -/
def SHELL_EXIT : Int := -100

/-- The status the parent observes for a child that terminated with
exit code `v`: `exit` delivers the low 8 bits and `WEXITSTATUS`
extracts them, i.e. the result is `v` modulo 256, in `[0,255]`. -/
def wait_status (v : Int) : Int := v.emod 256

/-! ## File-descriptor tables -/

/-- A process file-descriptor table: an association list from
descriptors to open-file descriptions.  Lookup returns the first
binding. -/
abbrev FdTable := List (Int × Desc)

/-- The description a descriptor refers to, if open. -/
def lookupFd : FdTable → Int → Option Desc
  | [], _ => none
  | (k, d) :: rest, fd => if k = fd then some d else lookupFd rest fd

/-- Remove a descriptor binding (used by `close`). -/
def removeFd : FdTable → Int → FdTable
  | [], _ => []
  | (k, d) :: rest, fd => if k = fd then removeFd rest fd else (k, d) :: removeFd rest fd

/-- Bind a descriptor to a description, replacing any previous
binding. -/
def setFd (t : FdTable) (fd : Int) (d : Desc) : FdTable :=
  (fd, d) :: removeFd t fd

/-- The lowest free nonnegative descriptor, as POSIX `open`/`dup`
allocate.  Among `0 .. t.length` at least one value is free. -/
def allocFd (t : FdTable) : Int :=
  match (List.range (t.length + 1)).find? (fun n => (lookupFd t (Int.ofNat n)).isNone) with
  | some n => Int.ofNat n
  | none => Int.ofNat (t.length + 1)

/-! ## Process state, global world, oracle -/

/-- Per-process state: the fd table and the current working directory.
A forked child starts from a copy of this state. -/
structure Proc where
  fds : FdTable
  cwd : String
deriving DecidableEq, Repr

/-- Global state threaded through an execution: the open-description
counter, the fork and pipe outcome counters, and the event trace. -/
structure World where
  openCtr : Nat
  forkCtr : Nat
  pipeCtr : Nat
  trace : List Ev
deriving DecidableEq, Repr

/-- Append an event to the trace. -/
def World.emit (w : World) (e : Ev) : World :=
  { w with trace := w.trace ++ [e] }

/-- The engine's external collaborators and environment, per the spec:
word resolution, environment variables, directory syscalls, `realpath`,
`putenv`, program execution, and the outcomes of `fork`/`pipe` calls
(indexed by occurrence). -/
structure Oracle where
  getWord : Word → String
  getArgv : SimpleCommand → List String
  home : Option String
  oldpwd : Option String
  chdirRet : String → Int
  chdirDest : String → String → String
  getcwdOf : String → Option String
  realpathOf : String → Option String
  putenvRet : String → Int
  execOk : String → Bool
  execCode : String → List String → Int
  forkFails : Nat → Bool
  pipeFails : Nat → Bool

/-! ## Descriptor system calls -/

/-- The trace event recorded for an `open` with the given mode. -/
def openEv (path : String) : FMode → Ev
  | .readOnly => Ev.openRead path
  | .writeTrunc => Ev.openWrite path true
  | .writeAppend => Ev.openWrite path false

/-- `open(path, flags)`: allocate the lowest free descriptor and bind it
to a fresh description; record the open in the trace. -/
def sysOpen (p : Proc) (w : World) (path : String) (mode : FMode) : Int × Proc × World :=
  let fd := allocFd p.fds
  let d := Desc.file w.openCtr path mode
  (fd, { p with fds := setFd p.fds fd d },
    { w with openCtr := w.openCtr + 1, trace := w.trace ++ [openEv path mode] })

/-- Allocate the lowest free descriptor for a given description (used
for the two ends created by `pipe`). -/
def sysOpenDesc (p : Proc) (d : Desc) : Int × Proc :=
  let fd := allocFd p.fds
  (fd, { p with fds := setFd p.fds fd d })

/-- `dup(old)`: returns `-1` on a closed descriptor, otherwise a fresh
lowest-free descriptor sharing the same description. -/
def sysDup (p : Proc) (old : Int) : Int × Proc :=
  match lookupFd p.fds old with
  | none => (-1, p)
  | some d =>
    let fd := allocFd p.fds
    (fd, { p with fds := setFd p.fds fd d })

/-- `dup2(old, new)`: a no-op if `old` is closed (EBADF), otherwise
`new` is made to refer to `old`'s description. -/
def sysDup2 (p : Proc) (old new : Int) : Proc :=
  match lookupFd p.fds old with
  | none => p
  | some d => { p with fds := setFd p.fds new d }

/-- `close(fd)`: a no-op on negative descriptors (EBADF), otherwise the
binding is removed. -/
def sysClose (p : Proc) (fd : Int) : Proc :=
  if fd < 0 then p else { p with fds := removeFd p.fds fd }

/-! ## Redirection manager (`redirect` in cmd.c) -/

/-- First loop of `redirect`: for every word of `s->in`, open the named
file read-only, `dup2` it onto standard input and close the
intermediate descriptor. -/
def redirect_in (O : Oracle) : List Word → Proc → World → Proc × World
  | [], p, w => (p, w)
  | wd :: rest, p, w =>
    let inf := O.getWord wd
    let (fd, p, w) := sysOpen p w inf FMode.readOnly
    let p := sysDup2 p fd 0
    let p := sysClose p fd
    redirect_in O rest p w

/-- The open mode chosen by `redirect` for output and error targets:
`s->io_flags == IO_REGULAR ? O_TRUNC : O_APPEND`. -/
def out_mode (flags : IoFlags) : FMode :=
  if flags = IoFlags.regular then FMode.writeTrunc else FMode.writeAppend

/-- Second loop of `redirect`: for every word of `s->out`, open it for
writing (truncating if `io_flags == IO_REGULAR`, appending otherwise)
and `dup2` it onto standard output.  Every descriptor except the last is
closed immediately; the last one is retained in `last_fd` and its
`realpath` in `last_path`. -/
def redirect_out (O : Oracle) (flags : IoFlags) :
    List Word → Int → Option String → Proc → World → Int × Option String × Proc × World
  | [], lastFd, lastPath, p, w => (lastFd, lastPath, p, w)
  | wd :: rest, _lastFd, lastPath, p, w =>
    let outf := O.getWord wd
    let (fd, p, w) := sysOpen p w outf (out_mode flags)
    let p := sysDup2 p fd 1
    match rest with
    | [] => (fd, O.realpathOf outf, p, w)
    | _ :: _ =>
      let p := sysClose p fd
      redirect_out O flags rest fd lastPath p w

/-- Third loop of `redirect`: for every word of `s->err`, compute its
`realpath`; if it resolves and equals the retained `last_path` of the
out sweep (with `last_fd` valid), duplicate the already-open `last_fd`
onto standard error without opening the file again; otherwise open the
target fresh with the command's mode, `dup2` it onto standard error and
close it.  (The C code compares with `strcmp(last_path, real_errf)`;
`last_path` is non-NULL whenever `realpath` succeeded on the retained
out target, which is the only case the comparison can reach with
defined behaviour, and Option equality models exactly those cases.) -/
def redirect_err (O : Oracle) (flags : IoFlags) (lastFd : Int) (lastPath : Option String) :
    List Word → Proc → World → Proc × World
  | [], p, w => (p, w)
  | wd :: rest, p, w =>
    let errf := O.getWord wd
    let real_errf := O.realpathOf errf
    if real_errf.isSome ∧ lastFd ≠ -1 ∧ lastPath = real_errf then
      let p := sysDup2 p lastFd 2
      redirect_err O flags lastFd lastPath rest p w
    else
      let (fd, p, w) := sysOpen p w errf (out_mode flags)
      let p := sysDup2 p fd 2
      let p := sysClose p fd
      redirect_err O flags lastFd lastPath rest p w

/-- `redirect(s)`: the three sweeps in order, then the retained output
descriptor (if any) is closed. -/
def redirect (O : Oracle) (s : SimpleCommand) (p : Proc) (w : World) : Proc × World :=
  let (p, w) := redirect_in O s.inL p w
  let (lastFd, lastPath, p, w) := redirect_out O s.io_flags s.outL (-1) none p w
  let (p, w) := redirect_err O s.io_flags lastFd lastPath s.errL p w
  let p := sysClose p lastFd
  (p, w)

/-! ## Built-ins and the simple-command executor (`parse_simple`) -/

/-- `shell_cd(dir)`: with no argument change to `HOME`, with argument
`-` change to `OLDPWD`, otherwise change to the argument.  `ret` starts
as `false` (that is, `0`) and is replaced by the `chdir` return value
only when `chdir` is actually called; the function returns
`ret < 0 ? false : true`.  (The C code also calls `free` on the
`getenv` results and on `get_word(dir)`; memory is not modelled.) -/
def shell_cd (O : Oracle) (dir : Option Word) (p : Proc) (w : World) : Bool × Proc × World :=
  match dir with
  | none =>
    match O.home with
    | some home =>
      let r := O.chdirRet home
      let p := if r < 0 then p else { p with cwd := O.chdirDest p.cwd home }
      let w := w.emit (Ev.chdirEv home)
      (decide ¬ r < 0, p, w)
    | none => (true, p, w)
  | some d =>
    let path := O.getWord d
    if path = "-" then
      match O.oldpwd with
      | some oldpwd =>
        let r := O.chdirRet oldpwd
        let p := if r < 0 then p else { p with cwd := O.chdirDest p.cwd oldpwd }
        let w := w.emit (Ev.chdirEv oldpwd)
        (decide ¬ r < 0, p, w)
      | none => (true, p, w)
    else
      let r := O.chdirRet path
      let p := if r < 0 then p else { p with cwd := O.chdirDest p.cwd path }
      let w := w.emit (Ev.chdirEv path)
      (decide ¬ r < 0, p, w)

/-- Body of the child forked for an external command in `parse_simple`:
apply redirections, then either run the built-in `pwd` (print the
working directory if `getcwd` succeeds, exit `0` either way) or attempt
`execvp` (on failure print a message naming the command and exit with
`execvp`'s return value `-1`).  Returns the child's exit code.  The C
failure message wraps the command name in single quotes; the quotes are
omitted here. -/
def external_child (O : Oracle) (s : SimpleCommand) (command : String)
    (params : List String) (p : Proc) (w : World) : Int × World :=
  let (cp, w) := redirect O s p w
  if command = "pwd" then
    match O.getcwdOf p.cwd with
    | some cwd => (0, w.emit (Ev.writeEv (lookupFd cp.fds 1) (cwd ++ "\n")))
    | none => (0, w)
  else
    let w := w.emit (Ev.execEv command params)
    if O.execOk command then
      (O.execCode command params, w)
    else
      (-1, w.emit (Ev.writeEv (lookupFd cp.fds 1) ("Execution failed for " ++ command ++ "\n")))

/-- The external-command section of `parse_simple`: resolve the
argument vector, fork (returning `SHELL_EXIT` on fork failure), run the
child, wait for it and return `WEXITSTATUS` of its exit code. -/
def parse_simple_ext (O : Oracle) (s : SimpleCommand) (command : String)
    (p : Proc) (w : World) : PRes × Proc × World :=
  let params := O.getArgv s
  let pid := w.forkCtr
  let forkFailed := O.forkFails w.forkCtr
  let w := { w with forkCtr := w.forkCtr + 1 }
  if forkFailed then
    (PRes.ret SHELL_EXIT, p, w)
  else
    let (code, w) := external_child O s command params p w
    let w := w.emit (Ev.waitEv pid)
    (PRes.ret (wait_status code), p, w)

/-- `parse_simple(s, level, father)`: NULL check, then the `cd`
built-in (redirections applied around it and the three standard
descriptors saved and restored), `exit`/`quit`, the `NAME=value`
environment assignment (detected by a verb continuation part equal to
`=`, returning `putenv`'s result), or an external command. -/
def parse_simple (O : Oracle) (s : Option SimpleCommand) (level : Int)
    (father : Option Command) (p : Proc) (w : World) : PRes × Proc × World :=
  match s with
  | none => (PRes.ret SHELL_EXIT, p, w)
  | some s =>
    let command := O.getWord s.verb
    if command = "cd" then
      let (saved_stdin, p) := sysDup p 0
      let (saved_stdout, p) := sysDup p 1
      let (saved_stderr, p) := sysDup p 2
      let (p, w) := redirect O s p w
      let (r, p, w) := shell_cd O s.params.head? p w
      let p := sysDup2 p saved_stdin 0
      let p := sysDup2 p saved_stdout 1
      let p := sysDup2 p saved_stderr 2
      let p := sysClose p saved_stdin
      let p := sysClose p saved_stdout
      let p := sysClose p saved_stderr
      (PRes.ret (if r then 0 else 1), p, w)
    else if command = "exit" ∨ command = "quit" then
      (PRes.exited 0, p, w)
    else
      match s.verb.next_part with
      | some np =>
        if np.string = "=" then
          (PRes.ret (O.putenvRet (O.getWord s.verb)), p,
            w.emit (Ev.putenvEv (O.getWord s.verb)))
        else
          parse_simple_ext O s command p w
      | none => parse_simple_ext O s command p w

/-! ## Process orchestrator (`run_in_parallel`, `run_on_pipe`) -/

/-- `run_in_parallel(cmd1, cmd2, level, father)`: fork a first child
that evaluates `cmd1` and exits with its status; in the parent fork a
second child for `cmd2`; wait for both and succeed only if both exited
with status `0`.  If the second fork fails the function returns `false`
immediately: the first child is NOT waited for.  `k1`/`k2` are the
child evaluations (closures over `parse_command` on `cmd1`/`cmd2`);
each runs on a copy of the parent process state. -/
def run_in_parallel (O : Oracle) (k1 k2 : Proc → World → PRes × Proc × World)
    (p : Proc) (w : World) : Bool × Proc × World :=
  let pid := w.forkCtr
  let forkFailed := O.forkFails w.forkCtr
  let w := { w with forkCtr := w.forkCtr + 1 }
  if forkFailed then
    (false, p, w)
  else
    let (r1, _, w) := k1 p w
    let pid2 := w.forkCtr
    let fork2Failed := O.forkFails w.forkCtr
    let w := { w with forkCtr := w.forkCtr + 1 }
    if fork2Failed then
      (false, p, w)
    else
      let (r2, _, w) := k2 p w
      let w := w.emit (Ev.waitEv pid)
      let w := w.emit (Ev.waitEv pid2)
      let status := wait_status (presCode r1)
      let status2 := wait_status (presCode r2)
      if status ≠ 0 ∨ status2 ≠ 0 then (false, p, w) else (true, p, w)

/-- `run_on_pipe(cmd1, cmd2, level, father)`: create a pipe (failure
returns `false`); fork a first child that redirects its standard output
to the write end and evaluates `cmd1`; fork a second child that
redirects its standard input to the read end and evaluates `cmd2`; the
parent closes both ends, waits for both children — both `waitpid` calls
store into the SAME `status` variable, so the final test sees the
second child's status — and fails iff that status is nonzero.  On a
fork failure the parent returns `false` without closing the pipe ends
or waiting. -/
def run_on_pipe (O : Oracle) (k1 k2 : Proc → World → PRes × Proc × World)
    (p : Proc) (w : World) : Bool × Proc × World :=
  let pipeFailed := O.pipeFails w.pipeCtr
  let pipeId := w.pipeCtr
  let w := { w with pipeCtr := w.pipeCtr + 1 }
  if pipeFailed then
    (false, p, w)
  else
    let (fdRead, p) := sysOpenDesc p (Desc.pipeEnd pipeId false)
    let (fdWrite, p) := sysOpenDesc p (Desc.pipeEnd pipeId true)
    let pid := w.forkCtr
    let forkFailed := O.forkFails w.forkCtr
    let w := { w with forkCtr := w.forkCtr + 1 }
    if forkFailed then
      (false, p, w)
    else
      let cp := sysClose p fdRead
      let cp := sysDup2 cp fdWrite 1
      let cp := sysClose cp fdWrite
      let (r1, _, w) := k1 cp w
      let pid2 := w.forkCtr
      let fork2Failed := O.forkFails w.forkCtr
      let w := { w with forkCtr := w.forkCtr + 1 }
      if fork2Failed then
        (false, p, w)
      else
        let cp2 := sysClose p fdWrite
        let cp2 := sysDup2 cp2 fdRead 0
        let cp2 := sysClose cp2 fdRead
        let (r2, _, w) := k2 cp2 w
        let p := sysClose p fdRead
        let p := sysClose p fdWrite
        let w := w.emit (Ev.waitEv pid)
        let w := w.emit (Ev.waitEv pid2)
        let status := wait_status (presCode r1)
        let status := wait_status (presCode r2)
        if status ≠ 0 then (false, p, w) else (true, p, w)

/-! ## Command tree evaluator (`parse_command`) -/

/-- `parse_command(c, level, father)` on a non-NULL node: a leaf
delegates to `parse_simple`; `Sequential` evaluates both children and
returns the second status; the conditionals evaluate the second child
depending on the first status; `Parallel` and `Pipe` delegate to the
orchestrator and map its boolean to `0`/`1`.  A child evaluation that
calls `exit` unwinds the enclosing process (`PRes.exited`
short-circuits), except across a fork boundary, where it just
determines the child's exit code.  In the modelled tree the children of
an internal node are never NULL, so the recursive calls bypass the NULL
guard (see `parse_command_t` for the guard). -/
def parse_command (O : Oracle) : Command → Int → Option Command → Proc → World →
    PRes × Proc × World
  | Command.simple scmd, level, father, p, w => parse_simple O scmd level father p w
  | Command.compound Op.sequential c1 c2, level, _father, p, w =>
    (match parse_command O c1 (level + 1) (some (Command.compound Op.sequential c1 c2)) p w with
     | (PRes.exited v, p1, w1) => (PRes.exited v, p1, w1)
     | (PRes.ret _, p1, w1) =>
       parse_command O c2 (level + 1) (some (Command.compound Op.sequential c1 c2)) p1 w1)
  | Command.compound Op.parallel c1 c2, level, _father, p, w =>
    let (b, p2, w2) := run_in_parallel O
      (fun p w => parse_command O c1 (level + 1 + 1) (some (Command.compound Op.parallel c1 c2)) p w)
      (fun p w => parse_command O c2 (level + 1 + 1) (some (Command.compound Op.parallel c1 c2)) p w)
      p w
    (PRes.ret (if b then 0 else 1), p2, w2)
  | Command.compound Op.condNZero c1 c2, level, _father, p, w =>
    (match parse_command O c1 (level + 1) (some (Command.compound Op.condNZero c1 c2)) p w with
     | (PRes.exited v, p1, w1) => (PRes.exited v, p1, w1)
     | (PRes.ret v, p1, w1) =>
       if v ≠ 0 then
         parse_command O c2 (level + 1) (some (Command.compound Op.condNZero c1 c2)) p1 w1
       else (PRes.ret v, p1, w1))
  | Command.compound Op.condZero c1 c2, level, _father, p, w =>
    (match parse_command O c1 (level + 1) (some (Command.compound Op.condZero c1 c2)) p w with
     | (PRes.exited v, p1, w1) => (PRes.exited v, p1, w1)
     | (PRes.ret v, p1, w1) =>
       if v = 0 then
         parse_command O c2 (level + 1) (some (Command.compound Op.condZero c1 c2)) p1 w1
       else (PRes.ret v, p1, w1))
  | Command.compound Op.pipeOp c1 c2, level, _father, p, w =>
    let (b, p2, w2) := run_on_pipe O
      (fun p w => parse_command O c1 (level + 1 + 1) (some (Command.compound Op.pipeOp c1 c2)) p w)
      (fun p w => parse_command O c2 (level + 1 + 1) (some (Command.compound Op.pipeOp c1 c2)) p w)
      p w
    (PRes.ret (if b then 0 else 1), p2, w2)

/-- `parse_command` including the defensive NULL guard at the top:
`parse_command(NULL, ...)` returns `SHELL_EXIT`. -/
def parse_command_t (O : Oracle) (c : Option Command) (level : Int)
    (father : Option Command) (p : Proc) (w : World) : PRes × Proc × World :=
  match c with
  | none => (PRes.ret SHELL_EXIT, p, w)
  | some c => parse_command O c level father p w

/-! ## Observations, invariants and concrete instances -/

/-- The paths of the read-only opens in a trace, in order. -/
def openReadEvents : List Ev → List String
  | [] => []
  | Ev.openRead s :: t => s :: openReadEvents t
  | _ :: t => openReadEvents t

/-- Number of `waitpid` events in a trace. -/
def waitCount : List Ev → Nat
  | [] => 0
  | Ev.waitEv _ :: t => waitCount t + 1
  | _ :: t => waitCount t

/-- Number of write (printf) events in a trace. -/
def writeCount : List Ev → Nat
  | [] => 0
  | Ev.writeEv _ _ :: t => writeCount t + 1
  | _ :: t => writeCount t

/-- The range invariant of the spec on statuses returned to the
caller: a normal return is in `[0,255]` or is the `SHELL_EXIT`
sentinel.  A process that exited returns nothing to its caller. -/
def retGood : PRes → Prop
  | .ret v => (0 ≤ v ∧ v ≤ 255) ∨ v = SHELL_EXIT
  | .exited _ => True

/-- The three standard descriptors are open, as they are in any process
hosting a shell. -/
def Inv (p : Proc) : Prop :=
  (lookupFd p.fds 0).isSome = true ∧ (lookupFd p.fds 1).isSome = true ∧
    (lookupFd p.fds 2).isSome = true

/-- No `fork` and no `pipe` call fails in the modelled execution. -/
def allOk (O : Oracle) : Prop :=
  (∀ n, O.forkFails n = false) ∧ (∀ n, O.pipeFails n = false)

/-- The table binding the three standard streams. -/
def stdTable : FdTable := [(0, Desc.std 0), (1, Desc.std 1), (2, Desc.std 2)]

/-- A canonical initial process state. -/
def pInit : Proc := { fds := stdTable, cwd := "/root" }

/-- A canonical initial world. -/
def wInit : World := { openCtr := 0, forkCtr := 0, pipeCtr := 0, trace := [] }

/-- The exit status of the child a `Parallel`/`Pipe` branch is
evaluated in: the branch's evaluation result as delivered by `exit` and
observed by `waitpid` (modulo 256), computed at the canonical initial
state.  When no fork or pipe fails this status does not depend on the
state (see `parse_command_result_state_free`). -/
def childStatus (O : Oracle) (c : Command) : Int :=
  wait_status (presCode ((parse_command O c 0 none pInit wInit).1))

/-- A base concrete oracle for witnesses: words resolve to their part
string, `HOME`/`OLDPWD` are unset, all syscalls succeed, every fork and
pipe succeeds. -/
def Otest : Oracle :=
  { getWord := Word.string
    getArgv := fun _ => []
    home := none
    oldpwd := none
    chdirRet := fun _ => 0
    chdirDest := fun _ path => path
    getcwdOf := fun c => some c
    realpathOf := fun s => some s
    putenvRet := fun _ => 0
    execOk := fun _ => true
    execCode := fun _ _ => 0
    forkFails := fun _ => false
    pipeFails := fun _ => false }

/-- A `cd` command with no argument and no redirections. -/
def cdCmd : SimpleCommand :=
  { verb := Word.mk "cd" none, params := [], inL := [], outL := [], errL := [],
    io_flags := IoFlags.regular }

/-- A `cd -` command with no redirections. -/
def cdDashCmd : SimpleCommand :=
  { verb := Word.mk "cd" none, params := [Word.mk "-" none], inL := [], outL := [],
    errL := [], io_flags := IoFlags.regular }

/-- A `NAME=value` assignment command: the verb has a continuation part
that is literally `=`. -/
def asgnCmd : SimpleCommand :=
  { verb := Word.mk "FOO" (some (Word.mk "=" (some (Word.mk "bar" none)))), params := [],
    inL := [], outL := [], errL := [], io_flags := IoFlags.regular }

/-- Oracle for the second-fork-failure scenario of `run_in_parallel`:
fork number 1 (the second fork performed) fails. -/
def OforkSecond : Oracle := { Otest with forkFails := fun n => n == 1 }

/-- Oracle under which `putenv` reports failure with the glibc value
`-1`. -/
def OputenvFail : Oracle := { Otest with putenvRet := fun _ => -1 }

/-- A `pwd` command with no redirections. -/
def pwdCmd : SimpleCommand :=
  { verb := Word.mk "pwd" none, params := [], inL := [], outL := [], errL := [],
    io_flags := IoFlags.regular }

/-- A `cd` command carrying redirections of all three kinds. -/
def cdRedirCmd : SimpleCommand :=
  { verb := Word.mk "cd" none, params := [], inL := [Word.mk "f" none],
    outL := [Word.mk "g" none], errL := [Word.mk "g" none], io_flags := IoFlags.regular }

/-- An external command with two input redirections. -/
def rdInCmd : SimpleCommand :=
  { verb := Word.mk "cat" none, params := [], inL := [Word.mk "a" none, Word.mk "b" none],
    outL := [], errL := [], io_flags := IoFlags.regular }

/-- A process state as it looks during the error sweep of `redirect`
when an output descriptor for the file `g` has been retained on
descriptor 3. -/
def pOut : Proc :=
  { fds := (3, Desc.file 0 "g" FMode.writeTrunc) :: stdTable, cwd := "/root" }

/-- An oracle under which `getcwd` fails. -/
def OgetcwdFail : Oracle := { Otest with getcwdOf := fun _ => none }

/-! ## Lemmas: descriptor tables -/

theorem lookupFd_removeFd (t : FdTable) (fd fd' : Int) :
    lookupFd (removeFd t fd) fd' = if fd' = fd then none else lookupFd t fd' := by
  induction t with
  | nil => simp [removeFd, lookupFd]
  | cons e rest ih =>
    obtain ⟨k, d⟩ := e
    by_cases hk : k = fd
    · subst hk
      by_cases h' : fd' = k
      · subst h'
        simpa [removeFd, lookupFd] using ih
      · have hk' : ¬ k = fd' := fun h => h' h.symm
        simp [removeFd, lookupFd, h', hk', ih]
    · by_cases hkf : k = fd'
      · subst hkf
        simp [removeFd, lookupFd, hk]
      · simp [removeFd, lookupFd, hk, hkf, ih]

theorem lookupFd_setFd (t : FdTable) (fd fd' : Int) (d : Desc) :
    lookupFd (setFd t fd d) fd' = if fd' = fd then some d else lookupFd t fd' := by
  unfold setFd
  by_cases h : fd = fd'
  · subst h; simp [lookupFd]
  · have h' : ¬ fd' = fd := fun hh => h hh.symm
    simp [lookupFd, h, h', lookupFd_removeFd]

theorem mem_keys_of_lookupFd {t : FdTable} {k : Int} (h : lookupFd t k ≠ none) :
    k ∈ t.map Prod.fst := by
  induction t with
  | nil => simp [lookupFd] at h
  | cons e rest ih =>
    obtain ⟨k', d⟩ := e
    by_cases hk : k' = k
    · subst hk; simp
    · simp only [lookupFd, hk, if_false] at h
      simpa using Or.inr (ih h)

theorem allocFd_nonneg (t : FdTable) : 0 ≤ allocFd t := by
  unfold allocFd
  cases h : (List.range (t.length + 1)).find? (fun n => (lookupFd t (Int.ofNat n)).isNone) with
  | none => simp; omega
  | some n => simp

theorem lookupFd_allocFd (t : FdTable) : lookupFd t (allocFd t) = none := by
  unfold allocFd
  cases h : (List.range (t.length + 1)).find? (fun n => (lookupFd t (Int.ofNat n)).isNone) with
  | some n =>
    have := List.find?_some h
    simpa using this
  | none =>
    exfalso
    have hall := List.find?_eq_none.mp h
    have hmem : ∀ n : Nat, n < t.length + 1 → (Int.ofNat n) ∈ t.map Prod.fst := by
      intro n hn
      have := hall n (List.mem_range.mpr hn)
      simp only [Option.isNone_iff_eq_none, decide_eq_true_eq] at this
      exact mem_keys_of_lookupFd this
    have hsub : (Finset.range (t.length + 1)).image (fun n : Nat => (Int.ofNat n))
        ⊆ (t.map Prod.fst).toFinset := by
      intro x hx
      obtain ⟨n, hn, rfl⟩ := Finset.mem_image.mp hx
      exact List.mem_toFinset.mpr (hmem n (Finset.mem_range.mp hn))
    have hinj : Function.Injective (fun n : Nat => (Int.ofNat n : Int)) := by
      intro a b hab
      simpa using hab
    have hcard1 : ((Finset.range (t.length + 1)).image (fun n : Nat => (Int.ofNat n))).card
        = t.length + 1 := by
      rw [Finset.card_image_of_injective _ hinj, Finset.card_range]
    have hcard2 : (t.map Prod.fst).toFinset.card ≤ t.length := by
      calc (t.map Prod.fst).toFinset.card ≤ (t.map Prod.fst).length := List.toFinset_card_le _
        _ = t.length := List.length_map _ _
    have := Finset.card_le_card hsub
    omega

theorem allocFd_ne_of_isSome {t : FdTable} {fd : Int}
    (h : (lookupFd t fd).isSome = true) : allocFd t ≠ fd := by
  intro he
  rw [← he, lookupFd_allocFd] at h
  simp at h

/-! ## Lemmas: the redirection sweeps -/

/-- Effect of one iteration of the input sweep on the process state. -/
theorem redirect_in_cons_eq (O : Oracle) (wd : Word) (rest : List Word) (p : Proc)
    (w : World) (hInv : Inv p) :
    redirect_in O (wd :: rest) p w
      = redirect_in O rest
          { p with fds := removeFd (setFd (setFd p.fds (allocFd p.fds)
              (Desc.file w.openCtr (O.getWord wd) FMode.readOnly)) 0
              (Desc.file w.openCtr (O.getWord wd) FMode.readOnly)) (allocFd p.fds) }
          { w with openCtr := w.openCtr + 1,
                   trace := w.trace ++ [Ev.openRead (O.getWord wd)] } := by
  have hnn := allocFd_nonneg p.fds
  have hne0 : allocFd p.fds ≠ 0 := allocFd_ne_of_isSome hInv.1
  simp only [redirect_in, sysOpen, sysDup2, sysClose, lookupFd_setFd, if_pos rfl]
  have : ¬ allocFd p.fds < 0 := by omega
  simp [this, openEv]

theorem redirect_in_spec (O : Oracle) : ∀ (ws : List Word) (p : Proc) (w : World), Inv p →
    Inv (redirect_in O ws p w).1 ∧
    (∀ fd : Int, fd ≠ 0 →
      lookupFd (redirect_in O ws p w).1.fds fd = lookupFd p.fds fd) ∧
    (redirect_in O ws p w).2.trace
      = w.trace ++ ws.map (fun wd => Ev.openRead (O.getWord wd)) ∧
    (redirect_in O ws p w).2.openCtr = w.openCtr + ws.length ∧
    (redirect_in O ws p w).2.forkCtr = w.forkCtr ∧
    (redirect_in O ws p w).2.pipeCtr = w.pipeCtr ∧
    (∀ wd', ws.getLast? = some wd' →
      lookupFd (redirect_in O ws p w).1.fds 0
        = some (Desc.file (w.openCtr + ws.length - 1) (O.getWord wd') FMode.readOnly)) ∧
    (redirect_in O ws p w).1.cwd = p.cwd := by
  intro ws
  induction ws with
  | nil =>
    intro p w hInv
    simp [redirect_in, hInv]
  | cons wd rest ih =>
    intro p w hInv
    have hnn := allocFd_nonneg p.fds
    have hne0 : allocFd p.fds ≠ 0 := allocFd_ne_of_isSome hInv.1
    have hne1 : allocFd p.fds ≠ 1 := allocFd_ne_of_isSome hInv.2.1
    have hne2 : allocFd p.fds ≠ 2 := allocFd_ne_of_isSome hInv.2.2
    have hfree : lookupFd p.fds (allocFd p.fds) = none := lookupFd_allocFd p.fds
    rw [redirect_in_cons_eq O wd rest p w hInv]
    set f := allocFd p.fds with hf
    set d := Desc.file w.openCtr (O.getWord wd) FMode.readOnly with hd
    set p1 : Proc := { p with fds := removeFd (setFd (setFd p.fds f d) 0 d) f } with hp1
    set w1 : World := { w with openCtr := w.openCtr + 1,
                               trace := w.trace ++ [Ev.openRead (O.getWord wd)] } with hw1
    have hlook0 : lookupFd p1.fds 0 = some d := by
      simp [hp1, lookupFd_removeFd, lookupFd_setFd, Ne.symm hne0]
    have hframe1 : ∀ fd : Int, fd ≠ 0 → lookupFd p1.fds fd = lookupFd p.fds fd := by
      intro fd hfd
      by_cases hff : fd = f
      · subst hff
        simp [hp1, lookupFd_removeFd, hfree]
      · simp [hp1, lookupFd_removeFd, lookupFd_setFd, hff, hfd]
    have hInv1 : Inv p1 := by
      refine ⟨by simp [hlook0], ?_, ?_⟩
      · rw [hframe1 1 (by norm_num)]; exact hInv.2.1
      · rw [hframe1 2 (by norm_num)]; exact hInv.2.2
    obtain ⟨i1, i2, i3, i4, i5, i6, i7, i8⟩ := ih p1 w1 hInv1
    refine ⟨i1, ?_, ?_, ?_, by simpa using i5, by simpa using i6, ?_, by simpa using i8⟩
    · intro fd hfd
      rw [i2 fd hfd, hframe1 fd hfd]
    · rw [i3]
      simp [hw1, List.append_assoc]
    · rw [i4]
      simp [hw1]; omega
    · intro wd' hlast
      cases rest with
      | nil =>
        simp only [List.getLast?_singleton, Option.some_inj] at hlast
        subst hlast
        simp only [redirect_in]
        simpa [hw1] using hlook0
      | cons r rs =>
        rw [List.getLast?_cons_cons] at hlast
        have := i7 wd' hlast
        rw [this]
        simp only [hw1]
        congr 1
        congr 1
        simp [List.length_cons]
        omega

/-- Effect of the last iteration of the output sweep: the descriptor is
retained and its `realpath` recorded. -/
theorem redirect_out_last_eq (O : Oracle) (flags : IoFlags) (wd : Word) (lf0 : Int)
    (lp0 : Option String) (p : Proc) (w : World) :
    redirect_out O flags [wd] lf0 lp0 p w
      = (allocFd p.fds, O.realpathOf (O.getWord wd),
          { p with fds := (setFd (setFd p.fds (allocFd p.fds)
              (Desc.file w.openCtr (O.getWord wd) (out_mode flags))) 1
              (Desc.file w.openCtr (O.getWord wd) (out_mode flags))) },
          { w with openCtr := w.openCtr + 1,
                   trace := w.trace ++ [openEv (O.getWord wd) (out_mode flags)] }) := by
  simp [redirect_out, sysOpen, sysDup2, lookupFd_setFd]

/-- Effect of a non-last iteration of the output sweep: the descriptor
is closed after the duplication. -/
theorem redirect_out_cons_eq (O : Oracle) (flags : IoFlags) (wd r : Word) (rs : List Word)
    (lf0 : Int) (lp0 : Option String) (p : Proc) (w : World) :
    redirect_out O flags (wd :: r :: rs) lf0 lp0 p w
      = redirect_out O flags (r :: rs) (allocFd p.fds) lp0
          { p with fds := removeFd (setFd (setFd p.fds (allocFd p.fds)
              (Desc.file w.openCtr (O.getWord wd) (out_mode flags))) 1
              (Desc.file w.openCtr (O.getWord wd) (out_mode flags))) (allocFd p.fds) }
          { w with openCtr := w.openCtr + 1,
                   trace := w.trace ++ [openEv (O.getWord wd) (out_mode flags)] } := by
  have hnn := allocFd_nonneg p.fds
  simp only [redirect_out, sysOpen, sysDup2, sysClose, lookupFd_setFd, if_pos rfl]
  have : ¬ allocFd p.fds < 0 := by omega
  simp [this]

theorem redirect_out_spec (O : Oracle) (flags : IoFlags) :
    ∀ (ws : List Word) (wd' : Word) (lastFd : Int) (lastPath : Option String)
      (p : Proc) (w : World) (lf : Int) (lp : Option String) (p' : Proc) (w' : World),
      ws.getLast? = some wd' → Inv p →
      redirect_out O flags ws lastFd lastPath p w = (lf, lp, p', w') →
      Inv p' ∧
      lf ≠ 0 ∧ lf ≠ 1 ∧ lf ≠ 2 ∧ 0 ≤ lf ∧
      lookupFd p.fds lf = none ∧
      lookupFd p'.fds lf
        = some (Desc.file (w.openCtr + ws.length - 1) (O.getWord wd') (out_mode flags)) ∧
      lookupFd p'.fds 1
        = some (Desc.file (w.openCtr + ws.length - 1) (O.getWord wd') (out_mode flags)) ∧
      lp = O.realpathOf (O.getWord wd') ∧
      (∀ fd : Int, fd ≠ 1 → fd ≠ lf → lookupFd p'.fds fd = lookupFd p.fds fd) ∧
      w'.trace = w.trace ++ ws.map (fun x => openEv (O.getWord x) (out_mode flags)) ∧
      w'.openCtr = w.openCtr + ws.length ∧
      w'.forkCtr = w.forkCtr ∧ w'.pipeCtr = w.pipeCtr ∧
      p'.cwd = p.cwd := by
  intro ws
  induction ws with
  | nil =>
    intro wd' lastFd lastPath p w lf lp p' w' hlast
    simp at hlast
  | cons wd rest ih =>
    intro wd' lastFd lastPath p w lf lp p' w' hlast hInv heq
    have hnn := allocFd_nonneg p.fds
    have hne0 : allocFd p.fds ≠ 0 := allocFd_ne_of_isSome hInv.1
    have hne1 : allocFd p.fds ≠ 1 := allocFd_ne_of_isSome hInv.2.1
    have hne2 : allocFd p.fds ≠ 2 := allocFd_ne_of_isSome hInv.2.2
    have hfree : lookupFd p.fds (allocFd p.fds) = none := lookupFd_allocFd p.fds
    cases rest with
    | nil =>
      rw [redirect_out_last_eq] at heq
      simp only [Prod.mk.injEq] at heq
      obtain ⟨h1, h2, h3, h4⟩ := heq
      subst h1; subst h2; subst h3; subst h4
      simp only [List.getLast?_singleton, Option.some_inj] at hlast
      subst hlast
      refine ⟨?_, hne0, hne1, hne2, hnn, hfree, ?_, ?_, rfl, ?_, by simp, by simp, rfl, rfl, rfl⟩
      · refine ⟨?_, ?_, ?_⟩
        · simp only [lookupFd_setFd]
          rw [if_neg (by norm_num : (0:Int) ≠ 1), if_neg (Ne.symm hne0)]
          simpa using hInv.1
        · simp [lookupFd_setFd]
        · simp only [lookupFd_setFd]
          rw [if_neg (by norm_num : (2:Int) ≠ 1), if_neg (Ne.symm hne2)]
          simpa using hInv.2.2
      · simp [lookupFd_setFd, Ne.symm hne1]
      · simp [lookupFd_setFd]
      · intro fd hfd1 hfdf
        simp [lookupFd_setFd, hfd1, hfdf]
    | cons r rs =>
      rw [redirect_out_cons_eq] at heq
      have hframe1 : ∀ fd : Int, fd ≠ 1 →
          lookupFd (removeFd (setFd (setFd p.fds (allocFd p.fds)
            (Desc.file w.openCtr (O.getWord wd) (out_mode flags))) 1
            (Desc.file w.openCtr (O.getWord wd) (out_mode flags))) (allocFd p.fds)) fd
          = lookupFd p.fds fd := by
        intro fd hfd
        by_cases hff : fd = allocFd p.fds
        · subst hff
          simp [lookupFd_removeFd, hfree]
        · simp [lookupFd_removeFd, lookupFd_setFd, hff, hfd]
      have hInv1 : Inv { p with fds := removeFd (setFd (setFd p.fds (allocFd p.fds)
          (Desc.file w.openCtr (O.getWord wd) (out_mode flags))) 1
          (Desc.file w.openCtr (O.getWord wd) (out_mode flags))) (allocFd p.fds) } := by
      -- fd 1 now refers to the new description; 0 and 2 are untouched
        refine ⟨?_, ?_, ?_⟩
        · simpa using congrArg Option.isSome (hframe1 0 (by norm_num)) |>.trans hInv.1
        · simp [lookupFd_removeFd, lookupFd_setFd, Ne.symm hne1]
        · simpa using congrArg Option.isSome (hframe1 2 (by norm_num)) |>.trans hInv.2.2
      have hlast' : (r :: rs).getLast? = some wd' := by
        rw [← List.getLast?_cons_cons (a := wd)]; exact hlast
      obtain ⟨j1, j2, j3, j4, j5, j6, j7, j8, j9, j10, j11, j12, j13, j14, j15⟩ :=
        ih wd' (allocFd p.fds) lastPath _ _ lf lp p' w' hlast' hInv1 heq
      have hplf : lookupFd p.fds lf = none := by
        rw [← hframe1 lf j3]; exact j6
      have hidx : w.openCtr + 1 + (r :: rs).length - 1
          = w.openCtr + (wd :: r :: rs).length - 1 := by
        simp [List.length_cons]
        omega
      refine ⟨j1, j2, j3, j4, j5, hplf, ?_, ?_, j9, ?_, ?_, ?_, by simpa using j13,
        by simpa using j14, by simpa using j15⟩
      · rw [j7]; simp only [hidx]
      · rw [j8]; simp only [hidx]
      · intro fd hfd1 hfdlf
        rw [j10 fd hfd1 hfdlf]
        exact hframe1 fd hfd1
      · rw [j11]
        simp [List.append_assoc]
      · rw [j12]
        simp [List.length_cons]
        omega

/-! ## Lemmas: trace observations -/

@[simp] theorem openReadEvents_append (t1 t2 : List Ev) :
    openReadEvents (t1 ++ t2) = openReadEvents t1 ++ openReadEvents t2 := by
  induction t1 with
  | nil => rfl
  | cons e t ih => cases e <;> simp [openReadEvents, ih]

@[simp] theorem waitCount_append (t1 t2 : List Ev) :
    waitCount (t1 ++ t2) = waitCount t1 + waitCount t2 := by
  induction t1 with
  | nil => simp [waitCount]
  | cons e t ih => cases e <;> simp [waitCount, ih] <;> omega

@[simp] theorem writeCount_append (t1 t2 : List Ev) :
    writeCount (t1 ++ t2) = writeCount t1 + writeCount t2 := by
  induction t1 with
  | nil => simp [writeCount]
  | cons e t ih => cases e <;> simp [writeCount, ih] <;> omega

theorem openReadEvents_map_openRead {α : Type} (f : α → String) (ws : List α) :
    openReadEvents (ws.map (fun x => Ev.openRead (f x))) = ws.map f := by
  induction ws with
  | nil => rfl
  | cons x xs ih => simp [openReadEvents, ih]

theorem writeCount_openEv (path : String) (mode : FMode) :
    writeCount [openEv path mode] = 0 := by
  cases mode <;> rfl

theorem writeCount_map_openRead {α : Type} (f : α → String) (ws : List α) :
    writeCount (ws.map (fun x => Ev.openRead (f x))) = 0 := by
  induction ws with
  | nil => rfl
  | cons x xs ih => simp [writeCount, ih]

theorem writeCount_map_openEv {α : Type} (f : α → String) (mode : FMode) (ws : List α) :
    writeCount (ws.map (fun x => openEv (f x) mode)) = 0 := by
  induction ws with
  | nil => rfl
  | cons x xs ih => cases mode <;> simpa [openEv, writeCount] using ih

theorem out_mode_ne_readOnly (flags : IoFlags) : out_mode flags ≠ FMode.readOnly := by
  unfold out_mode
  split <;> simp

theorem openReadEvents_map_openEv {α : Type} (f : α → String) (mode : FMode)
    (h : mode ≠ FMode.readOnly) (ws : List α) :
    openReadEvents (ws.map (fun x => openEv (f x) mode)) = [] := by
  induction ws with
  | nil => rfl
  | cons x xs ih =>
    cases mode with
    | readOnly => exact absurd rfl h
    | writeTrunc => simpa [openEv, openReadEvents] using ih
    | writeAppend => simpa [openEv, openReadEvents] using ih

theorem openReadEvents_map_openEv_out {α : Type} (f : α → String) (flags : IoFlags)
    (ws : List α) :
    openReadEvents (ws.map (fun x => openEv (f x) (out_mode flags))) = [] :=
  openReadEvents_map_openEv f (out_mode flags) (out_mode_ne_readOnly flags) ws

/-! ## Lemmas: the error sweep and full redirect -/

theorem redirect_err_spec (O : Oracle) (flags : IoFlags) (lastFd : Int)
    (lastPath : Option String) :
    ∀ (ws : List Word) (p : Proc) (w : World), Inv p →
      Inv (redirect_err O flags lastFd lastPath ws p w).1 ∧
      (∀ fd : Int, fd ≠ 2 →
        lookupFd (redirect_err O flags lastFd lastPath ws p w).1.fds fd
          = lookupFd p.fds fd) ∧
      openReadEvents (redirect_err O flags lastFd lastPath ws p w).2.trace
        = openReadEvents w.trace ∧
      (redirect_err O flags lastFd lastPath ws p w).2.forkCtr = w.forkCtr ∧
      (redirect_err O flags lastFd lastPath ws p w).2.pipeCtr = w.pipeCtr ∧
      (redirect_err O flags lastFd lastPath ws p w).1.cwd = p.cwd ∧
      writeCount (redirect_err O flags lastFd lastPath ws p w).2.trace
        = writeCount w.trace := by
  intro ws
  induction ws with
  | nil =>
    intro p w hInv
    simp [redirect_err, hInv]
  | cons wd rest ih =>
    intro p w hInv
    by_cases hcond : (O.realpathOf (O.getWord wd)).isSome ∧ lastFd ≠ -1
        ∧ lastPath = O.realpathOf (O.getWord wd)
    · -- dedup branch: only standard error is rewired, nothing is opened
      have hstep : redirect_err O flags lastFd lastPath (wd :: rest) p w
          = redirect_err O flags lastFd lastPath rest (sysDup2 p lastFd 2) w := by
        simp only [redirect_err, if_pos hcond]
      rw [hstep]
      have hframe1 : ∀ fd : Int, fd ≠ 2 →
          lookupFd (sysDup2 p lastFd 2).fds fd = lookupFd p.fds fd := by
        intro fd hfd
        unfold sysDup2
        cases lookupFd p.fds lastFd with
        | none => rfl
        | some d => simp [lookupFd_setFd, hfd]
      have hInv1 : Inv (sysDup2 p lastFd 2) := by
        refine ⟨?_, ?_, ?_⟩
        · rw [hframe1 0 (by norm_num)]; exact hInv.1
        · rw [hframe1 1 (by norm_num)]; exact hInv.2.1
        · unfold sysDup2
          cases lookupFd p.fds lastFd with
          | none => exact hInv.2.2
          | some d => simp [lookupFd_setFd]
      have hcwd1 : (sysDup2 p lastFd 2).cwd = p.cwd := by
        unfold sysDup2
        cases lookupFd p.fds lastFd with
        | none => rfl
        | some d => rfl
      obtain ⟨i1, i2, i3, i4, i5, i6, i7⟩ := ih (sysDup2 p lastFd 2) w hInv1
      refine ⟨i1, ?_, i3, i4, i5, i6.trans hcwd1, i7⟩
      intro fd hfd
      rw [i2 fd hfd, hframe1 fd hfd]
    · -- fresh-open branch
      have hnn := allocFd_nonneg p.fds
      have hne0 : allocFd p.fds ≠ 0 := allocFd_ne_of_isSome hInv.1
      have hne1 : allocFd p.fds ≠ 1 := allocFd_ne_of_isSome hInv.2.1
      have hne2 : allocFd p.fds ≠ 2 := allocFd_ne_of_isSome hInv.2.2
      have hfree : lookupFd p.fds (allocFd p.fds) = none := lookupFd_allocFd p.fds
      have hstep : redirect_err O flags lastFd lastPath (wd :: rest) p w
          = redirect_err O flags lastFd lastPath rest
              { p with fds := removeFd (setFd (setFd p.fds (allocFd p.fds)
                  (Desc.file w.openCtr (O.getWord wd) (out_mode flags))) 2
                  (Desc.file w.openCtr (O.getWord wd) (out_mode flags))) (allocFd p.fds) }
              { w with openCtr := w.openCtr + 1,
                       trace := w.trace ++ [openEv (O.getWord wd) (out_mode flags)] } := by
        simp only [redirect_err, if_neg hcond, sysOpen, sysDup2, sysClose, lookupFd_setFd,
          if_pos rfl]
        have : ¬ allocFd p.fds < 0 := by omega
        simp [this]
      rw [hstep]
      have hframe1 : ∀ fd : Int, fd ≠ 2 →
          lookupFd (removeFd (setFd (setFd p.fds (allocFd p.fds)
              (Desc.file w.openCtr (O.getWord wd) (out_mode flags))) 2
              (Desc.file w.openCtr (O.getWord wd) (out_mode flags))) (allocFd p.fds)) fd
            = lookupFd p.fds fd := by
        intro fd hfd
        by_cases hff : fd = allocFd p.fds
        · subst hff
          simp [lookupFd_removeFd, hfree]
        · simp [lookupFd_removeFd, lookupFd_setFd, hff, hfd]
      have hInv1 : Inv { p with fds := removeFd (setFd (setFd p.fds (allocFd p.fds)
          (Desc.file w.openCtr (O.getWord wd) (out_mode flags))) 2
          (Desc.file w.openCtr (O.getWord wd) (out_mode flags))) (allocFd p.fds) } := by
        refine ⟨?_, ?_, ?_⟩
        · have h0 := hframe1 0 (by norm_num)
          simpa [h0] using hInv.1
        · have h1 := hframe1 1 (by norm_num)
          simpa [h1] using hInv.2.1
        · simp [lookupFd_removeFd, lookupFd_setFd, Ne.symm hne2]
      obtain ⟨i1, i2, i3, i4, i5, i6, i7⟩ := ih _ _ hInv1
      refine ⟨i1, ?_, ?_, by simpa using i4, by simpa using i5, by simpa using i6, ?_⟩
      · intro fd hfd
        rw [i2 fd hfd]
        exact hframe1 fd hfd
      · rw [i3]
        by_cases h : flags = IoFlags.regular <;> simp [openEv, out_mode, h, openReadEvents]
      · rw [i7]
        simp [writeCount_append, writeCount_openEv]

/-- Combined effect of `redirect` on the descriptor table and the
trace: the three standard descriptors may be rewired but every other
descriptor is exactly as before; exactly the input files appear as
read-only opens, in order; the last input redirection determines the
final standard input; the counters other than the open counter are
untouched. -/
theorem redirect_spec (O : Oracle) (s : SimpleCommand) (p : Proc) (w : World)
    (hInv : Inv p) :
    Inv (redirect O s p w).1 ∧
    (∀ fd : Int, fd ≠ 0 → fd ≠ 1 → fd ≠ 2 →
      lookupFd (redirect O s p w).1.fds fd = lookupFd p.fds fd) ∧
    (redirect O s p w).2.forkCtr = w.forkCtr ∧
    (redirect O s p w).2.pipeCtr = w.pipeCtr ∧
    (redirect O s p w).1.cwd = p.cwd ∧
    openReadEvents (redirect O s p w).2.trace
      = openReadEvents w.trace ++ s.inL.map (fun wd => O.getWord wd) ∧
    (∀ wd', s.inL.getLast? = some wd' →
      lookupFd (redirect O s p w).1.fds 0
        = some (Desc.file (w.openCtr + s.inL.length - 1) (O.getWord wd') FMode.readOnly)) ∧
    writeCount (redirect O s p w).2.trace = writeCount w.trace := by
  obtain ⟨a1, a2, a3, a4, a5, a6, a7, a8⟩ := redirect_in_spec O s.inL p w hInv
  rcases hin : redirect_in O s.inL p w with ⟨pa, wa⟩
  rw [hin] at a1 a2 a3 a4 a5 a6 a7 a8
  cases houtL : s.outL with
  | nil =>
    have hout : redirect_out O s.io_flags [] (-1) none pa wa = (-1, none, pa, wa) := rfl
    obtain ⟨e1, e2, e3, e4, e5, e6, e7⟩ :=
      redirect_err_spec O s.io_flags (-1) none s.errL pa wa a1
    rcases herr : redirect_err O s.io_flags (-1) none s.errL pa wa with ⟨pe, we⟩
    rw [herr] at e1 e2 e3 e4 e5 e6 e7
    have hred : redirect O s p w = (pe, we) := by
      simp only [redirect, hin, houtL, hout, herr]
      norm_num [sysClose]
    rw [hred]
    refine ⟨e1, ?_, ?_, ?_, e6.trans a8, ?_, ?_, ?_⟩
    · intro fd hfd0 hfd1 hfd2
      rw [e2 fd hfd2, a2 fd hfd0]
    · rw [e4, a5]
    · rw [e5, a6]
    · rw [e3, a3]
      simp [openReadEvents_map_openRead]
    · intro wd' hlast
      rw [e2 0 (by norm_num)]
      exact a7 wd' hlast
    · rw [e7, a3]
      simp [writeCount_append, writeCount_map_openRead]
  | cons o os =>
    have hex : ∃ wd', (o :: os).getLast? = some wd' := by
      have : (o :: os).getLast?.isSome = true := by
        rw [List.getLast?_isSome]
        simp
      exact Option.isSome_iff_exists.mp this
    obtain ⟨wo, hwo⟩ := hex
    rcases hout : redirect_out O s.io_flags (o :: os) (-1) none pa wa
      with ⟨lf, lp, pb, wb⟩
    obtain ⟨b1, b2, b3, b4, b5, b6, b7, b8, b9, b10, b11, b12, b13, b14, b15⟩ :=
      redirect_out_spec O s.io_flags (o :: os) wo (-1) none pa wa lf lp pb wb hwo a1 hout
    obtain ⟨e1, e2, e3, e4, e5, e6, e7⟩ :=
      redirect_err_spec O s.io_flags lf lp s.errL pb wb b1
    rcases herr : redirect_err O s.io_flags lf lp s.errL pb wb with ⟨pe, we⟩
    rw [herr] at e1 e2 e3 e4 e5 e6 e7
    have hlfnn : ¬ lf < 0 := by omega
    have hred : redirect O s p w = ({ pe with fds := removeFd pe.fds lf }, we) := by
      simp only [redirect, hin, houtL, hout, herr]
      simp [sysClose, hlfnn]
    rw [hred]
    have hframeC : ∀ fd : Int, fd ≠ lf →
        lookupFd (removeFd pe.fds lf) fd = lookupFd pe.fds fd := by
      intro fd hfd
      simp [lookupFd_removeFd, hfd]
    refine ⟨?_, ?_, ?_, ?_, ?_, ?_, ?_, ?_⟩
    · refine ⟨?_, ?_, ?_⟩
      · show (lookupFd (removeFd pe.fds lf) 0).isSome = true
        rw [hframeC 0 (Ne.symm b2)]; exact e1.1
      · show (lookupFd (removeFd pe.fds lf) 1).isSome = true
        rw [hframeC 1 (Ne.symm b3)]; exact e1.2.1
      · show (lookupFd (removeFd pe.fds lf) 2).isSome = true
        rw [hframeC 2 (Ne.symm b4)]; exact e1.2.2
    · intro fd hfd0 hfd1 hfd2
      show lookupFd (removeFd pe.fds lf) fd = lookupFd p.fds fd
      by_cases hflf : fd = lf
      · subst hflf
        have : lookupFd (removeFd pe.fds fd) fd = none := by
          simp [lookupFd_removeFd]
        rw [this, ← a2 fd hfd0, ← b6]
      · rw [hframeC fd hflf, e2 fd hfd2, b10 fd hfd1 hflf, a2 fd hfd0]
    · show we.forkCtr = w.forkCtr
      rw [e4, b13, a5]
    · show we.pipeCtr = w.pipeCtr
      rw [e5, b14, a6]
    · show pe.cwd = p.cwd
      rw [e6, b15, a8]
    · show openReadEvents we.trace = openReadEvents w.trace ++ s.inL.map (fun wd => O.getWord wd)
      rw [e3, b11, openReadEvents_append,
        openReadEvents_map_openEv_out (fun x : Word => O.getWord x) s.io_flags (o :: os),
        a3, openReadEvents_append, openReadEvents_map_openRead]
      simp
    · intro wd' hlast
      show lookupFd (removeFd pe.fds lf) 0
        = some (Desc.file (w.openCtr + s.inL.length - 1) (O.getWord wd') FMode.readOnly)
      rw [hframeC 0 (Ne.symm b2), e2 0 (by norm_num), b10 0 (by norm_num) (Ne.symm b2)]
      exact a7 wd' hlast
    · show writeCount we.trace = writeCount w.trace
      rw [e7, b11, writeCount_append,
        writeCount_map_openEv (fun x : Word => O.getWord x) (out_mode s.io_flags) (o :: os),
        a3, writeCount_append, writeCount_map_openRead]
      omega

/-! ## Lemmas: small-step equations for the executor -/

theorem shell_cd_fds (O : Oracle) (dir : Option Word) (p : Proc) (w : World) :
    (shell_cd O dir p w).2.1.fds = p.fds := by
  unfold shell_cd
  cases dir with
  | none =>
    cases O.home with
    | none => rfl
    | some h => dsimp only; split <;> rfl
  | some d =>
    dsimp only
    split
    · cases O.oldpwd with
      | none => rfl
      | some od => dsimp only; split <;> rfl
    · dsimp only; split <;> rfl

theorem sysDup_eq {p : Proc} {old : Int} {d : Desc} (h : lookupFd p.fds old = some d) :
    sysDup p old = (allocFd p.fds, { p with fds := setFd p.fds (allocFd p.fds) d }) := by
  unfold sysDup
  rw [h]

theorem sysDup2_eq {p : Proc} {old : Int} {d : Desc} (h : lookupFd p.fds old = some d)
    (new : Int) :
    sysDup2 p old new = { p with fds := setFd p.fds new d } := by
  unfold sysDup2
  rw [h]

theorem sysClose_eq {fd : Int} (h : ¬ fd < 0) (p : Proc) :
    sysClose p fd = { p with fds := removeFd p.fds fd } := by
  unfold sysClose
  rw [if_neg h]

/-! ## Claim theorems and witnesses -/

/-- **C9**: for the `cd` built-in with any redirection lists, after
`parse_simple` returns, the caller's standard input, output and error
descriptors are restored to their values from before the call, the
temporary saved descriptors are released, and in fact the whole
descriptor table is exactly as before. -/
theorem cd_restores_standard_descriptors
    (O : Oracle) (s : SimpleCommand) (level : Int) (father : Option Command)
    (p : Proc) (w : World) (hInv : Inv p) (hcd : O.getWord s.verb = "cd") (fd : Int) :
    lookupFd (parse_simple O (some s) level father p w).2.1.fds fd = lookupFd p.fds fd := by
  obtain ⟨d0, hd0⟩ := Option.isSome_iff_exists.mp hInv.1
  obtain ⟨d1, hd1⟩ := Option.isSome_iff_exists.mp hInv.2.1
  obtain ⟨d2, hd2⟩ := Option.isSome_iff_exists.mp hInv.2.2
  -- saved_stdin = dup(0)
  set a := allocFd p.fds with ha
  have hann : 0 ≤ a := allocFd_nonneg p.fds
  have ha0 : a ≠ 0 := allocFd_ne_of_isSome hInv.1
  have ha1 : a ≠ 1 := allocFd_ne_of_isSome hInv.2.1
  have ha2 : a ≠ 2 := allocFd_ne_of_isSome hInv.2.2
  have haf : lookupFd p.fds a = none := lookupFd_allocFd p.fds
  set pA : Proc := { p with fds := setFd p.fds a d0 } with hpA
  have hdup0 : sysDup p 0 = (a, pA) := sysDup_eq hd0
  have hlA : ∀ x : Int, x ≠ a → lookupFd pA.fds x = lookupFd p.fds x := by
    intro x hx
    rw [hpA]
    simp [lookupFd_setFd, hx]
  have hlAa : lookupFd pA.fds a = some d0 := by
    rw [hpA]; simp [lookupFd_setFd]
  -- saved_stdout = dup(1)
  set b := allocFd pA.fds with hb
  have hbnn : 0 ≤ b := allocFd_nonneg pA.fds
  have hbA : lookupFd pA.fds b = none := lookupFd_allocFd pA.fds
  have hb0 : b ≠ 0 := by
    intro hx
    rw [hx, hlA 0 (Ne.symm ha0), hd0] at hbA
    exact Option.noConfusion hbA
  have hb1 : b ≠ 1 := by
    intro hx
    rw [hx, hlA 1 (Ne.symm ha1), hd1] at hbA
    exact Option.noConfusion hbA
  have hb2 : b ≠ 2 := by
    intro hx
    rw [hx, hlA 2 (Ne.symm ha2), hd2] at hbA
    exact Option.noConfusion hbA
  have hba : b ≠ a := by
    intro hx
    rw [hx, hlAa] at hbA
    exact Option.noConfusion hbA
  have hbf : lookupFd p.fds b = none := by
    rw [← hlA b hba]; exact hbA
  have hlA1 : lookupFd pA.fds 1 = some d1 := by
    rw [hlA 1 (Ne.symm ha1)]; exact hd1
  set pB : Proc := { pA with fds := setFd pA.fds b d1 } with hpB
  have hdup1 : sysDup pA 1 = (b, pB) := sysDup_eq hlA1
  have hlB : ∀ x : Int, x ≠ b → lookupFd pB.fds x = lookupFd pA.fds x := by
    intro x hx
    rw [hpB]
    simp [lookupFd_setFd, hx]
  have hlBb : lookupFd pB.fds b = some d1 := by
    rw [hpB]; simp [lookupFd_setFd]
  -- saved_stderr = dup(2)
  set c := allocFd pB.fds with hc
  have hcnn : 0 ≤ c := allocFd_nonneg pB.fds
  have hcB : lookupFd pB.fds c = none := lookupFd_allocFd pB.fds
  have hc0 : c ≠ 0 := by
    intro hx
    rw [hx, hlB 0 (Ne.symm hb0), hlA 0 (Ne.symm ha0), hd0] at hcB
    exact Option.noConfusion hcB
  have hc1 : c ≠ 1 := by
    intro hx
    rw [hx, hlB 1 (Ne.symm hb1), hlA1] at hcB
    exact Option.noConfusion hcB
  have hc2 : c ≠ 2 := by
    intro hx
    rw [hx, hlB 2 (Ne.symm hb2), hlA 2 (Ne.symm ha2), hd2] at hcB
    exact Option.noConfusion hcB
  have hca : c ≠ a := by
    intro hx
    rw [hx, hlB a hba.symm, hlAa] at hcB
    exact Option.noConfusion hcB
  have hcb : c ≠ b := by
    intro hx
    rw [hx, hlBb] at hcB
    exact Option.noConfusion hcB
  have hcf : lookupFd p.fds c = none := by
    rw [← hlA c hca, ← hlB c hcb]; exact hcB
  have hlB2 : lookupFd pB.fds 2 = some d2 := by
    rw [hlB 2 (Ne.symm hb2), hlA 2 (Ne.symm ha2)]; exact hd2
  set pC : Proc := { pB with fds := setFd pB.fds c d2 } with hpC
  have hdup2 : sysDup pB 2 = (c, pC) := sysDup_eq hlB2
  have hlC : ∀ x : Int, x ≠ c → lookupFd pC.fds x = lookupFd pB.fds x := by
    intro x hx
    rw [hpC]
    simp [lookupFd_setFd, hx]
  have hlCc : lookupFd pC.fds c = some d2 := by
    rw [hpC]; simp [lookupFd_setFd]
  have hInvC : Inv pC := by
    refine ⟨?_, ?_, ?_⟩
    · rw [hlC 0 (Ne.symm hc0), hlB 0 (Ne.symm hb0), hlA 0 (Ne.symm ha0)]; exact hInv.1
    · rw [hlC 1 (Ne.symm hc1), hlB 1 (Ne.symm hb1), hlA1]; simp
    · rw [hlC 2 (Ne.symm hc2), hlB2]; simp
  -- redirect
  rcases hredeq : redirect O s pC w with ⟨pR, wR⟩
  obtain ⟨r1, r2, r3, r4, r5, r6, r7, r8⟩ := redirect_spec O s pC w hInvC
  rw [hredeq] at r1 r2
  -- shell_cd
  rcases hshell : shell_cd O s.params.head? pR wR with ⟨r, pS, wS⟩
  have hSfds : pS.fds = pR.fds := by
    have h := shell_cd_fds O s.params.head? pR wR
    rw [hshell] at h
    exact h
  -- restore
  have hlSa : lookupFd pS.fds a = some d0 := by
    rw [hSfds, r2 a ha0 ha1 ha2, hlC a hca.symm, hlB a hba.symm, hlAa]
  have hdup2a : sysDup2 pS a 0 = { pS with fds := setFd pS.fds 0 d0 } := sysDup2_eq hlSa 0
  set pT1 : Proc := { pS with fds := setFd pS.fds 0 d0 } with hpT1
  have hlT1b : lookupFd pT1.fds b = some d1 := by
    rw [hpT1]
    simp only [lookupFd_setFd, if_neg hb0]
    rw [hSfds, r2 b hb0 hb1 hb2, hlC b hcb.symm, hlBb]
  have hdup2b : sysDup2 pT1 b 1 = { pT1 with fds := setFd pT1.fds 1 d1 } := sysDup2_eq hlT1b 1
  set pT2 : Proc := { pT1 with fds := setFd pT1.fds 1 d1 } with hpT2
  have hlT2c : lookupFd pT2.fds c = some d2 := by
    rw [hpT2]
    simp only [lookupFd_setFd, if_neg hc1]
    rw [if_neg hc0, hSfds, r2 c hc0 hc1 hc2, hlCc]
  have hdup2c : sysDup2 pT2 c 2 = { pT2 with fds := setFd pT2.fds 2 d2 } := sysDup2_eq hlT2c 2
  set pT3 : Proc := { pT2 with fds := setFd pT2.fds 2 d2 } with hpT3
  have hclose_a : sysClose pT3 a = { pT3 with fds := removeFd pT3.fds a } :=
    sysClose_eq (by omega) pT3
  set pT4 : Proc := { pT3 with fds := removeFd pT3.fds a } with hpT4
  have hclose_b : sysClose pT4 b = { pT4 with fds := removeFd pT4.fds b } :=
    sysClose_eq (by omega) pT4
  set pT5 : Proc := { pT4 with fds := removeFd pT4.fds b } with hpT5
  have hclose_c : sysClose pT5 c = { pT5 with fds := removeFd pT5.fds c } :=
    sysClose_eq (by omega) pT5
  set pU : Proc := { pT5 with fds := removeFd pT5.fds c } with hpU
  -- the whole cd branch
  have hps : parse_simple O (some s) level father p w = (PRes.ret (if r then 0 else 1), pU, wS) := by
    simp only [parse_simple, hcd, if_pos, hdup0, hdup1, hdup2, hredeq, hshell,
      hdup2a, hdup2b, hdup2c, hclose_a, hclose_b, hclose_c]
  rw [hps]
  -- final case analysis
  show lookupFd pU.fds fd = lookupFd p.fds fd
  have hU : pU.fds = removeFd (removeFd (removeFd pT3.fds a) b) c := by
    rw [hpU, hpT5, hpT4]
  rw [hU]
  by_cases h0 : fd = 0
  · subst h0
    rw [lookupFd_removeFd, if_neg (Ne.symm hc0), lookupFd_removeFd, if_neg (Ne.symm hb0),
        lookupFd_removeFd, if_neg (Ne.symm ha0)]
    rw [hpT3]
    simp only [lookupFd_setFd]
    norm_num [hd0]
  by_cases h1 : fd = 1
  · subst h1
    rw [lookupFd_removeFd, if_neg (Ne.symm hc1), lookupFd_removeFd, if_neg (Ne.symm hb1),
        lookupFd_removeFd, if_neg (Ne.symm ha1)]
    rw [hpT3]
    simp only [lookupFd_setFd]
    norm_num [hd1]
  by_cases h2 : fd = 2
  · subst h2
    rw [lookupFd_removeFd, if_neg (Ne.symm hc2), lookupFd_removeFd, if_neg (Ne.symm hb2),
        lookupFd_removeFd, if_neg (Ne.symm ha2)]
    rw [hpT3]
    simp only [lookupFd_setFd]
    norm_num [hd2]
  by_cases hfa : fd = a
  · subst hfa
    rw [lookupFd_removeFd, if_neg hca.symm, lookupFd_removeFd, if_neg (Ne.symm hba),
        lookupFd_removeFd, if_pos rfl, haf]
  by_cases hfb : fd = b
  · subst hfb
    rw [lookupFd_removeFd, if_neg hcb.symm, lookupFd_removeFd, if_pos rfl, hbf]
  by_cases hfc : fd = c
  · subst hfc
    rw [lookupFd_removeFd, if_pos rfl, hcf]
  rw [lookupFd_removeFd, if_neg hfc, lookupFd_removeFd, if_neg hfb,
      lookupFd_removeFd, if_neg hfa]
  rw [hpT3]
  simp only [lookupFd_setFd, if_neg h2, if_neg h1, if_neg h0]
  rw [hSfds, r2 fd h0 h1 h2, hlC fd hfc, hlB fd hfb, hlA fd hfa]


/-- Witness for C9 at a concrete input: a redirected `cd` run from the
standard three-descriptor table leaves descriptor 1 (and every other
descriptor) exactly as before. -/
theorem cd_restores_standard_descriptors_witness :
    Inv pInit ∧
    lookupFd (parse_simple Otest (some cdRedirCmd) 0 none pInit wInit).2.1.fds 1
      = lookupFd pInit.fds 1 :=
  ⟨⟨rfl, rfl, rfl⟩, cd_restores_standard_descriptors Otest cdRedirCmd 0 none pInit wInit
    ⟨rfl, rfl, rfl⟩ (by decide) 1⟩

/-- **C8**: during redirection apply, every word of the input list is
opened read-only, in order, none skipped; the last entry determines the
final standard input; and every descriptor other than the three
standard ones is left as it was (the intermediate descriptors are
closed). -/
theorem input_redirections_all_opened_last_wins
    (O : Oracle) (s : SimpleCommand) (p : Proc) (w : World) (hInv : Inv p) :
    openReadEvents (redirect O s p w).2.trace
      = openReadEvents w.trace ++ s.inL.map (fun wd => O.getWord wd) ∧
    (∀ wd', s.inL.getLast? = some wd' →
      lookupFd (redirect O s p w).1.fds 0
        = some (Desc.file (w.openCtr + s.inL.length - 1) (O.getWord wd') FMode.readOnly)) ∧
    (∀ fd : Int, fd ≠ 0 → fd ≠ 1 → fd ≠ 2 →
      lookupFd (redirect O s p w).1.fds fd = lookupFd p.fds fd) := by
  obtain ⟨_, h2, _, _, _, h6, h7, _⟩ := redirect_spec O s p w hInv
  exact ⟨h6, h7, h2⟩

/-- Witness for C8 at a concrete input: redirecting input from `a` then
`b` opens both files, and standard input ends at the description of
`b`. -/
theorem input_redirections_all_opened_last_wins_witness :
    Inv pInit ∧
    openReadEvents (redirect Otest rdInCmd pInit wInit).2.trace
      = openReadEvents wInit.trace ++ rdInCmd.inL.map (fun wd => Otest.getWord wd) ∧
    lookupFd (redirect Otest rdInCmd pInit wInit).1.fds 0
      = some (Desc.file 1 "b" FMode.readOnly) := by
  refine ⟨⟨rfl, rfl, rfl⟩,
    (input_redirections_all_opened_last_wins Otest rdInCmd pInit wInit ⟨rfl, rfl, rfl⟩).1, ?_⟩
  exact (input_redirections_all_opened_last_wins Otest rdInCmd pInit wInit
    ⟨rfl, rfl, rfl⟩).2.1 (Word.mk "b" none) (by decide)

/-- **C5**: in the error sweep, an entry whose canonical path resolves
and equals the retained canonical path of the last output descriptor is
wired by duplicating that already-open descriptor onto standard error —
same description `d`, no second open, no new trace event —, while an
entry whose canonical path does not resolve or differs is opened fresh
with the command's truncate/append mode, duplicated onto standard
error, and the fresh descriptor is closed again. -/
theorem err_redirect_dedup_reuses_out_descriptor
    (O : Oracle) (flags : IoFlags) (lastFd : Int) (lastPath : Option String)
    (e : Word) (rest : List Word) (p : Proc) (w : World) (d : Desc)
    (hlf : lastFd ≠ -1) (hld : lookupFd p.fds lastFd = some d) :
    (∀ q : String, O.realpathOf (O.getWord e) = some q → lastPath = some q →
      redirect_err O flags lastFd lastPath (e :: rest) p w
        = redirect_err O flags lastFd lastPath rest
            { p with fds := setFd p.fds 2 d } w) ∧
    (O.realpathOf (O.getWord e) = none ∨ lastPath ≠ O.realpathOf (O.getWord e) →
      redirect_err O flags lastFd lastPath (e :: rest) p w
        = redirect_err O flags lastFd lastPath rest
            { p with fds := removeFd (setFd (setFd p.fds (allocFd p.fds)
                (Desc.file w.openCtr (O.getWord e) (out_mode flags))) 2
                (Desc.file w.openCtr (O.getWord e) (out_mode flags))) (allocFd p.fds) }
            { w with openCtr := w.openCtr + 1,
                     trace := w.trace ++ [openEv (O.getWord e) (out_mode flags)] }) := by
  constructor
  · intro q h1 h2
    have hcond : (O.realpathOf (O.getWord e)).isSome = true ∧ lastFd ≠ -1
        ∧ lastPath = O.realpathOf (O.getWord e) := by
      refine ⟨by rw [h1]; rfl, hlf, by rw [h1, h2]⟩
    simp only [redirect_err, if_pos hcond, sysDup2_eq hld]
  · intro hne
    have hcond : ¬ ((O.realpathOf (O.getWord e)).isSome = true ∧ lastFd ≠ -1
        ∧ lastPath = O.realpathOf (O.getWord e)) := by
      rcases hne with h | h
      · intro hc
        rw [h] at hc
        simpa using hc.1
      · intro hc
        exact h hc.2.2
    have hnn := allocFd_nonneg p.fds
    simp only [redirect_err, if_neg hcond, sysOpen, sysDup2, sysClose, lookupFd_setFd,
      if_pos rfl]
    have : ¬ allocFd p.fds < 0 := by omega
    simp [this]

/-- Witness for C5 at a concrete input: with the output file `g`
retained on descriptor 3, the error entry `g` makes standard error
share the already-open description without another open. -/
theorem err_redirect_dedup_reuses_out_descriptor_witness :
    lookupFd pOut.fds 3 = some (Desc.file 0 "g" FMode.writeTrunc) ∧
    redirect_err Otest IoFlags.regular 3 (some "g") [Word.mk "g" none] pOut wInit
      = redirect_err Otest IoFlags.regular 3 (some "g") []
          { pOut with fds := setFd pOut.fds 2 (Desc.file 0 "g" FMode.writeTrunc) } wInit := by
  refine ⟨by decide, ?_⟩
  exact (err_redirect_dedup_reuses_out_descriptor Otest IoFlags.regular 3 (some "g")
    (Word.mk "g" none) [] pOut wInit (Desc.file 0 "g" FMode.writeTrunc)
    (by decide) (by decide)).1 "g" (by decide) rfl

/-- **C1** (evidence of the code bug): with `HOME` unset, `cd` with no
argument returns `true` — success — and `parse_simple` returns status
`0`, not a failure; likewise `cd -` with `OLDPWD` unset.  The working
directory is indeed unchanged.  `shell_cd` initialises `ret` to `false`
(that is, `0`) and returns `ret < 0 ? false : true`, so the
did-not-chdir paths report success. -/
theorem cd_unset_home_oldpwd_returns_success :
    shell_cd Otest none pInit wInit = (true, pInit, wInit) ∧
    shell_cd Otest (some (Word.mk "-" none)) pInit wInit = (true, pInit, wInit) ∧
    (parse_simple Otest (some cdCmd) 0 none pInit wInit).1 = PRes.ret 0 ∧
    (parse_simple Otest (some cdCmd) 0 none pInit wInit).2.1.cwd = pInit.cwd ∧
    (parse_simple Otest (some cdDashCmd) 0 none pInit wInit).1 = PRes.ret 0 ∧
    (parse_simple Otest (some cdDashCmd) 0 none pInit wInit).2.1.cwd = pInit.cwd := by
  decide

/-- **C2** (evidence of the code bug): when the first fork of
`run_in_parallel` succeeds and the second fails, the function reports
failure but performs no `waitpid` at all — the first child is
abandoned, not reaped. -/
theorem parallel_second_fork_fail_abandons_first_child :
    OforkSecond.forkFails 0 = false ∧ OforkSecond.forkFails 1 = true ∧
    (run_in_parallel OforkSecond
        (fun p w => parse_command OforkSecond (Command.simple none) 2 none p w)
        (fun p w => parse_command OforkSecond (Command.simple none) 2 none p w)
        pInit wInit).1 = false ∧
    waitCount (run_in_parallel OforkSecond
        (fun p w => parse_command OforkSecond (Command.simple none) 2 none p w)
        (fun p w => parse_command OforkSecond (Command.simple none) 2 none p w)
        pInit wInit).2.2.trace = 0 := by
  decide

/-- **C10**: the built-in `pwd` child always exits with status 0, even
when `getcwd` fails; in the failure case it prints nothing, so a simple
`pwd` never yields a nonzero status from the pwd logic itself (the fork
is assumed to succeed; a fork failure yields `SHELL_EXIT` from the fork
logic, not from `pwd`). -/
theorem pwd_child_always_exits_zero
    (O : Oracle) (s : SimpleCommand) (level : Int) (father : Option Command)
    (p : Proc) (w : World) (hInv : Inv p)
    (hpwd : O.getWord s.verb = "pwd") (hnp : s.verb.next_part = none)
    (hfork : O.forkFails w.forkCtr = false) :
    (parse_simple O (some s) level father p w).1 = PRes.ret 0 ∧
    (O.getcwdOf p.cwd = none →
      writeCount (parse_simple O (some s) level father p w).2.2.trace
        = writeCount w.trace) := by
  have hps : parse_simple O (some s) level father p w
      = parse_simple_ext O s (O.getWord s.verb) p w := by
    simp only [parse_simple, hnp, hpwd]
    simp
  rw [hps, hpwd]
  rcases hred : redirect O s p { w with forkCtr := w.forkCtr + 1 } with ⟨cp, w2⟩
  obtain ⟨-, -, -, -, -, -, -, hwc⟩ :=
    redirect_spec O s p { w with forkCtr := w.forkCtr + 1 } hInv
  rw [hred] at hwc
  constructor
  · cases hcw : O.getcwdOf p.cwd with
    | some cwd =>
      simp only [parse_simple_ext, hfork, external_child, hred, hcw]
      simp [wait_status]
      decide
    | none =>
      simp only [parse_simple_ext, hfork, external_child, hred, hcw]
      simp [wait_status]
      decide
  · intro hcw
    simp only [parse_simple_ext, hfork, external_child, hred, hcw]
    simp only [World.emit, writeCount_append]
    simp [writeCount]
    exact hwc

/-- Witness for C10 at a concrete input: with `getcwd` failing, `pwd`
still produces status 0 and prints nothing. -/
theorem pwd_child_always_exits_zero_witness :
    (parse_simple OgetcwdFail (some pwdCmd) 0 none pInit wInit).1 = PRes.ret 0 ∧
    writeCount (parse_simple OgetcwdFail (some pwdCmd) 0 none pInit wInit).2.2.trace
      = writeCount wInit.trace := by
  have h := pwd_child_always_exits_zero OgetcwdFail pwdCmd 0 none pInit wInit
    ⟨rfl, rfl, rfl⟩ rfl rfl rfl
  exact ⟨h.1, h.2 rfl⟩

/-- **C7**: when the left child of a conditional node returns normally
with status `v`, a `ConditionalOnNonZero` node evaluates the right
child iff `v` is nonzero (its result and state then being the right
child's) and otherwise returns `v` with the state left by the left
child; symmetrically, a `ConditionalOnZero` node evaluates the right
child iff `v` is zero. -/
theorem conditional_right_eval_iff_status
    (O : Oracle) (l r : Command) (level : Int) (father : Option Command)
    (p : Proc) (w : World) (v : Int) (p1 : Proc) (w1 : World)
    (h1 : parse_command O l (level + 1) (some (Command.compound Op.condNZero l r)) p w
        = (PRes.ret v, p1, w1))
    (h2 : parse_command O l (level + 1) (some (Command.compound Op.condZero l r)) p w
        = (PRes.ret v, p1, w1)) :
    (parse_command O (Command.compound Op.condNZero l r) level father p w
      = if v ≠ 0 then
          parse_command O r (level + 1) (some (Command.compound Op.condNZero l r)) p1 w1
        else (PRes.ret v, p1, w1)) ∧
    (parse_command O (Command.compound Op.condZero l r) level father p w
      = if v = 0 then
          parse_command O r (level + 1) (some (Command.compound Op.condZero l r)) p1 w1
        else (PRes.ret v, p1, w1)) := by
  constructor
  · simp only [parse_command, h1]
  · simp only [parse_command, h2]

/-- Witness for C7 at a concrete input: a left branch with the NULL
simple command returns `SHELL_EXIT` (nonzero), so the `||` node goes on
to evaluate the right child and the `&&` node stops with the left
status. -/
theorem conditional_right_eval_iff_status_witness :
    parse_command Otest
        (Command.compound Op.condNZero (Command.simple none) (Command.simple none))
        0 none pInit wInit
      = parse_command Otest (Command.simple none) 1
          (some (Command.compound Op.condNZero (Command.simple none) (Command.simple none)))
          pInit wInit ∧
    parse_command Otest
        (Command.compound Op.condZero (Command.simple none) (Command.simple none))
        0 none pInit wInit
      = (PRes.ret SHELL_EXIT, pInit, wInit) := by
  have h := conditional_right_eval_iff_status Otest (Command.simple none) (Command.simple none) 0 none pInit wInit
    SHELL_EXIT pInit wInit (by decide) (by decide)
  constructor
  · have h1 := h.1
    rw [if_pos (by decide)] at h1
    exact h1
  · have h2 := h.2
    rw [if_neg (by decide)] at h2
    exact h2

end MiniShell


namespace MiniShell

theorem shell_cd_result (O : Oracle) (dir : Option Word) (p p' : Proc) (w w' : World) :
    (shell_cd O dir p w).1 = (shell_cd O dir p' w').1 := by
  unfold shell_cd
  cases dir with
  | none =>
    cases O.home with
    | none => rfl
    | some h => rfl
  | some d =>
    dsimp only
    split
    · cases O.oldpwd with
      | none => rfl
      | some od => rfl
    · rfl

theorem external_child_code (O : Oracle) (s : SimpleCommand) (cmd : String)
    (prm : List String) (p p' : Proc) (w w' : World) :
    (external_child O s cmd prm p w).1 = (external_child O s cmd prm p' w').1 := by
  rcases h : redirect O s p w with ⟨cp, w2⟩
  rcases h' : redirect O s p' w' with ⟨cp2, w3⟩
  by_cases hcmd : cmd = "pwd"
  · subst hcmd
    simp only [external_child, h, h', if_pos rfl]
    cases O.getcwdOf p.cwd <;> cases O.getcwdOf p'.cwd <;> rfl
  · simp only [external_child, h, h', if_neg hcmd]
    cases O.execOk cmd <;> rfl

theorem parse_simple_ext_result_state_free (O : Oracle) (hO : allOk O) (s : SimpleCommand)
    (cmd : String) (p p' : Proc) (w w' : World) :
    (parse_simple_ext O s cmd p w).1 = (parse_simple_ext O s cmd p' w').1 := by
  rcases hec : external_child O s cmd (O.getArgv s)
      p { w with forkCtr := w.forkCtr + 1 } with ⟨code, w2⟩
  rcases hec' : external_child O s cmd (O.getArgv s)
      p' { w' with forkCtr := w'.forkCtr + 1 } with ⟨code2, w3⟩
  have hcode : code = code2 := by
    have hh := external_child_code O s cmd (O.getArgv s)
      p p' { w with forkCtr := w.forkCtr + 1 } { w' with forkCtr := w'.forkCtr + 1 }
    rw [hec, hec'] at hh
    exact hh
  simp only [parse_simple_ext, hO.1, hec, hec']
  simp [hcode]

theorem parse_simple_result_state_free (O : Oracle) (hO : allOk O)
    (s : Option SimpleCommand) (l l' : Int) (f f' : Option Command)
    (p p' : Proc) (w w' : World) :
    (parse_simple O s l f p w).1 = (parse_simple O s l' f' p' w').1 := by
  cases s with
  | none => rfl
  | some s =>
    by_cases hcd : O.getWord s.verb = "cd"
    · rcases ha : sysDup p 0 with ⟨a, pA⟩
      rcases hb : sysDup pA 1 with ⟨b, pB⟩
      rcases hc : sysDup pB 2 with ⟨c, pC⟩
      rcases hr : redirect O s pC w with ⟨pR, wR⟩
      rcases hs : shell_cd O s.params.head? pR wR with ⟨r, pS, wS⟩
      rcases ha' : sysDup p' 0 with ⟨a2, pA2⟩
      rcases hb' : sysDup pA2 1 with ⟨b2, pB2⟩
      rcases hc' : sysDup pB2 2 with ⟨c2, pC2⟩
      rcases hr' : redirect O s pC2 w' with ⟨pR2, wR2⟩
      rcases hs' : shell_cd O s.params.head? pR2 wR2 with ⟨r2, pS2, wS2⟩
      have hrr : r = r2 := by
        have hh := shell_cd_result O s.params.head? pR pR2 wR wR2
        rw [hs, hs'] at hh
        exact hh
      simp only [parse_simple, hcd, ha, hb, hc, hr, hs, ha', hb', hc', hr', hs']
      simp [hrr]
    · by_cases hex : O.getWord s.verb = "exit" ∨ O.getWord s.verb = "quit"
      · simp only [parse_simple, if_neg hcd, if_pos hex]
      · cases hnp : s.verb.next_part with
        | some np =>
          by_cases heq : np.string = "="
          · simp only [parse_simple, if_neg hcd, if_neg hex, hnp, if_pos heq]
          · simp only [parse_simple, if_neg hcd, if_neg hex, hnp, if_neg heq]
            exact parse_simple_ext_result_state_free O hO s _ p p' w w'
        | none =>
          simp only [parse_simple, if_neg hcd, if_neg hex, hnp]
          exact parse_simple_ext_result_state_free O hO s _ p p' w w'

end MiniShell

namespace MiniShell

/-- Explicit form of `run_in_parallel` when no fork fails. -/
theorem run_in_parallel_unfold (O : Oracle) (hO : allOk O)
    (k1 k2 : Proc → World → PRes × Proc × World) (p : Proc) (w : World) :
    run_in_parallel O k1 k2 p w
      = (let res1 := k1 p { w with forkCtr := w.forkCtr + 1 }
         let res2 := k2 p { res1.2.2 with forkCtr := res1.2.2.forkCtr + 1 }
         let wfin := ((res2.2.2.emit (Ev.waitEv w.forkCtr)).emit
           (Ev.waitEv res1.2.2.forkCtr))
         if wait_status (presCode res1.1) ≠ 0 ∨ wait_status (presCode res2.1) ≠ 0 then
           (false, p, wfin)
         else (true, p, wfin)) := by
  simp only [run_in_parallel, hO.1, Bool.false_eq_true, if_false]

/-- Explicit form of `run_on_pipe` when the pipe is created and no fork
fails. -/
theorem run_on_pipe_unfold (O : Oracle) (hO : allOk O)
    (k1 k2 : Proc → World → PRes × Proc × World) (p : Proc) (w : World) :
    run_on_pipe O k1 k2 p w
      = (let p1 := { p with fds := (setFd p.fds (allocFd p.fds)
           (Desc.pipeEnd w.pipeCtr false)) }
         let p2 := { p1 with fds := (setFd p1.fds (allocFd p1.fds)
           (Desc.pipeEnd w.pipeCtr true)) }
         let w1 := { w with pipeCtr := w.pipeCtr + 1, forkCtr := w.forkCtr + 1 }
         let cp := sysClose (sysDup2 (sysClose p2 (allocFd p.fds)) (allocFd p1.fds) 1)
           (allocFd p1.fds)
         let res1 := k1 cp w1
         let cp2 := sysClose (sysDup2 (sysClose p2 (allocFd p1.fds)) (allocFd p.fds) 0)
           (allocFd p.fds)
         let res2 := k2 cp2 { res1.2.2 with forkCtr := res1.2.2.forkCtr + 1 }
         let pp := sysClose (sysClose p2 (allocFd p.fds)) (allocFd p1.fds)
         let wfin := ((res2.2.2.emit (Ev.waitEv w.forkCtr)).emit
           (Ev.waitEv res1.2.2.forkCtr))
         if wait_status (presCode res2.1) ≠ 0 then (false, pp, wfin)
         else (true, pp, wfin)) := by
  simp only [run_on_pipe, hO.1, hO.2, Bool.false_eq_true, if_false, sysOpenDesc]

end MiniShell

namespace MiniShell

example (O : Oracle) (c1 c2 : Command) (lv : Int) (ff : Option Command) (pz : Proc) (wz : World) :
    (parse_command O (Command.compound Op.parallel c1 c2) lv ff pz wz).1
      = PRes.ret (if (run_in_parallel O
          (fun pa wa => parse_command O c1 (lv + 1 + 1)
            (some (Command.compound Op.parallel c1 c2)) pa wa)
          (fun pa wa => parse_command O c2 (lv + 1 + 1)
            (some (Command.compound Op.parallel c1 c2)) pa wa)
          pz wz).1 then 0 else 1) := rfl

example (O : Oracle) (c1 c2 : Command) (lv : Int) (ff : Option Command) (pz : Proc) (wz : World) :
    (parse_command O (Command.compound Op.pipeOp c1 c2) lv ff pz wz).1
      = PRes.ret (if (run_on_pipe O
          (fun pa wa => parse_command O c1 (lv + 1 + 1)
            (some (Command.compound Op.pipeOp c1 c2)) pa wa)
          (fun pa wa => parse_command O c2 (lv + 1 + 1)
            (some (Command.compound Op.pipeOp c1 c2)) pa wa)
          pz wz).1 then 0 else 1) := rfl

end MiniShell

namespace MiniShell

/-- Projection of the evaluator's `Parallel` case. -/
theorem parse_command_parallel_fst (O : Oracle) (c1 c2 : Command) (lv : Int)
    (ff : Option Command) (pz : Proc) (wz : World) :
    (parse_command O (Command.compound Op.parallel c1 c2) lv ff pz wz).1
      = PRes.ret (if (run_in_parallel O
          (fun pa wa => parse_command O c1 (lv + 1 + 1)
            (some (Command.compound Op.parallel c1 c2)) pa wa)
          (fun pa wa => parse_command O c2 (lv + 1 + 1)
            (some (Command.compound Op.parallel c1 c2)) pa wa)
          pz wz).1 then 0 else 1) := rfl

/-- Projection of the evaluator's `Pipe` case. -/
theorem parse_command_pipe_fst (O : Oracle) (c1 c2 : Command) (lv : Int)
    (ff : Option Command) (pz : Proc) (wz : World) :
    (parse_command O (Command.compound Op.pipeOp c1 c2) lv ff pz wz).1
      = PRes.ret (if (run_on_pipe O
          (fun pa wa => parse_command O c1 (lv + 1 + 1)
            (some (Command.compound Op.pipeOp c1 c2)) pa wa)
          (fun pa wa => parse_command O c2 (lv + 1 + 1)
            (some (Command.compound Op.pipeOp c1 c2)) pa wa)
          pz wz).1 then 0 else 1) := rfl

/-- When no fork or pipe call fails, the result component of the
evaluator depends only on the oracle and the command tree, not on the
level, father, process state or world it is run in — statuses flow
through oracle answers only. -/
theorem parse_command_result_state_free (O : Oracle) (hO : allOk O) :
    ∀ (c : Command) (l l' : Int) (f f' : Option Command) (p p' : Proc) (w w' : World),
      (parse_command O c l f p w).1 = (parse_command O c l' f' p' w').1 := by
  intro c
  induction c with
  | simple scmd =>
    intro l l' f f' p p' w w'
    exact parse_simple_result_state_free O hO scmd l l' f f' p p' w w'
  | compound op c1 c2 ih1 ih2 =>
    intro l l' f f' p p' w w'
    cases op with
    | sequential =>
      rcases h1 : parse_command O c1 (l + 1)
          (some (Command.compound Op.sequential c1 c2)) p w with ⟨r1, p1, w1⟩
      rcases h1' : parse_command O c1 (l' + 1)
          (some (Command.compound Op.sequential c1 c2)) p' w' with ⟨r1', p1', w1'⟩
      have hr : r1 = r1' := by
        have hh := ih1 (l + 1) (l' + 1) (some (Command.compound Op.sequential c1 c2))
          (some (Command.compound Op.sequential c1 c2)) p p' w w'
        rw [h1, h1'] at hh
        exact hh
      subst hr
      cases r1 with
      | exited v => simp only [parse_command, h1, h1']
      | ret v =>
        simp only [parse_command, h1, h1']
        exact ih2 _ _ _ _ _ _ _ _
    | condNZero =>
      rcases h1 : parse_command O c1 (l + 1)
          (some (Command.compound Op.condNZero c1 c2)) p w with ⟨r1, p1, w1⟩
      rcases h1' : parse_command O c1 (l' + 1)
          (some (Command.compound Op.condNZero c1 c2)) p' w' with ⟨r1', p1', w1'⟩
      have hr : r1 = r1' := by
        have hh := ih1 (l + 1) (l' + 1) (some (Command.compound Op.condNZero c1 c2))
          (some (Command.compound Op.condNZero c1 c2)) p p' w w'
        rw [h1, h1'] at hh
        exact hh
      subst hr
      cases r1 with
      | exited v => simp only [parse_command, h1, h1']
      | ret v =>
        simp only [parse_command, h1, h1']
        by_cases hv : v ≠ 0
        · simp only [if_pos hv]
          exact ih2 _ _ _ _ _ _ _ _
        · simp only [if_neg hv]
    | condZero =>
      rcases h1 : parse_command O c1 (l + 1)
          (some (Command.compound Op.condZero c1 c2)) p w with ⟨r1, p1, w1⟩
      rcases h1' : parse_command O c1 (l' + 1)
          (some (Command.compound Op.condZero c1 c2)) p' w' with ⟨r1', p1', w1'⟩
      have hr : r1 = r1' := by
        have hh := ih1 (l + 1) (l' + 1) (some (Command.compound Op.condZero c1 c2))
          (some (Command.compound Op.condZero c1 c2)) p p' w w'
        rw [h1, h1'] at hh
        exact hh
      subst hr
      cases r1 with
      | exited v => simp only [parse_command, h1, h1']
      | ret v =>
        simp only [parse_command, h1, h1']
        by_cases hv : v = 0
        · simp only [if_pos hv]
          exact ih2 _ _ _ _ _ _ _ _
        · simp only [if_neg hv]
    | parallel =>
      rw [parse_command_parallel_fst, parse_command_parallel_fst,
        run_in_parallel_unfold O hO, run_in_parallel_unfold O hO]
      dsimp only
      rw [ih1 (l + 1 + 1) (l' + 1 + 1) (some (Command.compound Op.parallel c1 c2))
        (some (Command.compound Op.parallel c1 c2)) p p'
        { w with forkCtr := w.forkCtr + 1 } { w' with forkCtr := w'.forkCtr + 1 }]
      rw [ih2 (l + 1 + 1) (l' + 1 + 1) (some (Command.compound Op.parallel c1 c2))
        (some (Command.compound Op.parallel c1 c2)) p p'
        { (parse_command O c1 (l + 1 + 1) (some (Command.compound Op.parallel c1 c2)) p
            { w with forkCtr := w.forkCtr + 1 }).2.2 with
          forkCtr := (parse_command O c1 (l + 1 + 1)
            (some (Command.compound Op.parallel c1 c2)) p
            { w with forkCtr := w.forkCtr + 1 }).2.2.forkCtr + 1 }
        { (parse_command O c1 (l' + 1 + 1) (some (Command.compound Op.parallel c1 c2)) p'
            { w' with forkCtr := w'.forkCtr + 1 }).2.2 with
          forkCtr := (parse_command O c1 (l' + 1 + 1)
            (some (Command.compound Op.parallel c1 c2)) p'
            { w' with forkCtr := w'.forkCtr + 1 }).2.2.forkCtr + 1 }]
      simp only [apply_ite (fun x : Bool × Proc × World => x.1)]
    | pipeOp =>
      rw [parse_command_pipe_fst, parse_command_pipe_fst,
        run_on_pipe_unfold O hO, run_on_pipe_unfold O hO]
      dsimp only
      rw [ih2 (l + 1 + 1) (l' + 1 + 1) (some (Command.compound Op.pipeOp c1 c2)) (some (Command.compound Op.pipeOp c1 c2)) (sysClose (sysDup2 (sysClose { fds := setFd (setFd p.fds (allocFd p.fds) (Desc.pipeEnd w.pipeCtr false)) (allocFd (setFd p.fds (allocFd p.fds) (Desc.pipeEnd w.pipeCtr false))) (Desc.pipeEnd w.pipeCtr true), cwd := p.cwd } (allocFd (setFd p.fds (allocFd p.fds) (Desc.pipeEnd w.pipeCtr false)))) (allocFd p.fds) 0) (allocFd p.fds)) (sysClose (sysDup2 (sysClose { fds := setFd (setFd p'.fds (allocFd p'.fds) (Desc.pipeEnd w'.pipeCtr false)) (allocFd (setFd p'.fds (allocFd p'.fds) (Desc.pipeEnd w'.pipeCtr false))) (Desc.pipeEnd w'.pipeCtr true), cwd := p'.cwd } (allocFd (setFd p'.fds (allocFd p'.fds) (Desc.pipeEnd w'.pipeCtr false)))) (allocFd p'.fds) 0) (allocFd p'.fds)) ({ openCtr := (parse_command O c1 (l + 1 + 1) (some (Command.compound Op.pipeOp c1 c2)) (sysClose (sysDup2 (sysClose { fds := setFd (setFd p.fds (allocFd p.fds) (Desc.pipeEnd w.pipeCtr false)) (allocFd (setFd p.fds (allocFd p.fds) (Desc.pipeEnd w.pipeCtr false))) (Desc.pipeEnd w.pipeCtr true), cwd := p.cwd } (allocFd p.fds)) (allocFd (setFd p.fds (allocFd p.fds) (Desc.pipeEnd w.pipeCtr false))) 1) (allocFd (setFd p.fds (allocFd p.fds) (Desc.pipeEnd w.pipeCtr false)))) { openCtr := w.openCtr, forkCtr := w.forkCtr + 1, pipeCtr := w.pipeCtr + 1, trace := w.trace }).2.2.openCtr, forkCtr := (parse_command O c1 (l + 1 + 1) (some (Command.compound Op.pipeOp c1 c2)) (sysClose (sysDup2 (sysClose { fds := setFd (setFd p.fds (allocFd p.fds) (Desc.pipeEnd w.pipeCtr false)) (allocFd (setFd p.fds (allocFd p.fds) (Desc.pipeEnd w.pipeCtr false))) (Desc.pipeEnd w.pipeCtr true), cwd := p.cwd } (allocFd p.fds)) (allocFd (setFd p.fds (allocFd p.fds) (Desc.pipeEnd w.pipeCtr false))) 1) (allocFd (setFd p.fds (allocFd p.fds) (Desc.pipeEnd w.pipeCtr false)))) { openCtr := w.openCtr, forkCtr := w.forkCtr + 1, pipeCtr := w.pipeCtr + 1, trace := w.trace }).2.2.forkCtr + 1, pipeCtr := (parse_command O c1 (l + 1 + 1) (some (Command.compound Op.pipeOp c1 c2)) (sysClose (sysDup2 (sysClose { fds := setFd (setFd p.fds (allocFd p.fds) (Desc.pipeEnd w.pipeCtr false)) (allocFd (setFd p.fds (allocFd p.fds) (Desc.pipeEnd w.pipeCtr false))) (Desc.pipeEnd w.pipeCtr true), cwd := p.cwd } (allocFd p.fds)) (allocFd (setFd p.fds (allocFd p.fds) (Desc.pipeEnd w.pipeCtr false))) 1) (allocFd (setFd p.fds (allocFd p.fds) (Desc.pipeEnd w.pipeCtr false)))) { openCtr := w.openCtr, forkCtr := w.forkCtr + 1, pipeCtr := w.pipeCtr + 1, trace := w.trace }).2.2.pipeCtr, trace := (parse_command O c1 (l + 1 + 1) (some (Command.compound Op.pipeOp c1 c2)) (sysClose (sysDup2 (sysClose { fds := setFd (setFd p.fds (allocFd p.fds) (Desc.pipeEnd w.pipeCtr false)) (allocFd (setFd p.fds (allocFd p.fds) (Desc.pipeEnd w.pipeCtr false))) (Desc.pipeEnd w.pipeCtr true), cwd := p.cwd } (allocFd p.fds)) (allocFd (setFd p.fds (allocFd p.fds) (Desc.pipeEnd w.pipeCtr false))) 1) (allocFd (setFd p.fds (allocFd p.fds) (Desc.pipeEnd w.pipeCtr false)))) { openCtr := w.openCtr, forkCtr := w.forkCtr + 1, pipeCtr := w.pipeCtr + 1, trace := w.trace }).2.2.trace }) ({ openCtr := (parse_command O c1 (l' + 1 + 1) (some (Command.compound Op.pipeOp c1 c2)) (sysClose (sysDup2 (sysClose { fds := setFd (setFd p'.fds (allocFd p'.fds) (Desc.pipeEnd w'.pipeCtr false)) (allocFd (setFd p'.fds (allocFd p'.fds) (Desc.pipeEnd w'.pipeCtr false))) (Desc.pipeEnd w'.pipeCtr true), cwd := p'.cwd } (allocFd p'.fds)) (allocFd (setFd p'.fds (allocFd p'.fds) (Desc.pipeEnd w'.pipeCtr false))) 1) (allocFd (setFd p'.fds (allocFd p'.fds) (Desc.pipeEnd w'.pipeCtr false)))) { openCtr := w'.openCtr, forkCtr := w'.forkCtr + 1, pipeCtr := w'.pipeCtr + 1, trace := w'.trace }).2.2.openCtr, forkCtr := (parse_command O c1 (l' + 1 + 1) (some (Command.compound Op.pipeOp c1 c2)) (sysClose (sysDup2 (sysClose { fds := setFd (setFd p'.fds (allocFd p'.fds) (Desc.pipeEnd w'.pipeCtr false)) (allocFd (setFd p'.fds (allocFd p'.fds) (Desc.pipeEnd w'.pipeCtr false))) (Desc.pipeEnd w'.pipeCtr true), cwd := p'.cwd } (allocFd p'.fds)) (allocFd (setFd p'.fds (allocFd p'.fds) (Desc.pipeEnd w'.pipeCtr false))) 1) (allocFd (setFd p'.fds (allocFd p'.fds) (Desc.pipeEnd w'.pipeCtr false)))) { openCtr := w'.openCtr, forkCtr := w'.forkCtr + 1, pipeCtr := w'.pipeCtr + 1, trace := w'.trace }).2.2.forkCtr + 1, pipeCtr := (parse_command O c1 (l' + 1 + 1) (some (Command.compound Op.pipeOp c1 c2)) (sysClose (sysDup2 (sysClose { fds := setFd (setFd p'.fds (allocFd p'.fds) (Desc.pipeEnd w'.pipeCtr false)) (allocFd (setFd p'.fds (allocFd p'.fds) (Desc.pipeEnd w'.pipeCtr false))) (Desc.pipeEnd w'.pipeCtr true), cwd := p'.cwd } (allocFd p'.fds)) (allocFd (setFd p'.fds (allocFd p'.fds) (Desc.pipeEnd w'.pipeCtr false))) 1) (allocFd (setFd p'.fds (allocFd p'.fds) (Desc.pipeEnd w'.pipeCtr false)))) { openCtr := w'.openCtr, forkCtr := w'.forkCtr + 1, pipeCtr := w'.pipeCtr + 1, trace := w'.trace }).2.2.pipeCtr, trace := (parse_command O c1 (l' + 1 + 1) (some (Command.compound Op.pipeOp c1 c2)) (sysClose (sysDup2 (sysClose { fds := setFd (setFd p'.fds (allocFd p'.fds) (Desc.pipeEnd w'.pipeCtr false)) (allocFd (setFd p'.fds (allocFd p'.fds) (Desc.pipeEnd w'.pipeCtr false))) (Desc.pipeEnd w'.pipeCtr true), cwd := p'.cwd } (allocFd p'.fds)) (allocFd (setFd p'.fds (allocFd p'.fds) (Desc.pipeEnd w'.pipeCtr false))) 1) (allocFd (setFd p'.fds (allocFd p'.fds) (Desc.pipeEnd w'.pipeCtr false)))) { openCtr := w'.openCtr, forkCtr := w'.forkCtr + 1, pipeCtr := w'.pipeCtr + 1, trace := w'.trace }).2.2.trace })]
      simp only [apply_ite (fun x : Bool × Proc × World => x.1)]

end MiniShell

namespace MiniShell

theorem redirect_in_forkCtr (O : Oracle) :
    ∀ (ws : List Word) (p : Proc) (w : World),
      (redirect_in O ws p w).2.forkCtr = w.forkCtr ∧
      (redirect_in O ws p w).2.pipeCtr = w.pipeCtr := by
  intro ws
  induction ws with
  | nil => intro p w; exact ⟨rfl, rfl⟩
  | cons wd rest ih =>
    intro p w
    simp only [redirect_in, sysOpen]
    exact ih _ _

theorem redirect_out_forkCtr (O : Oracle) (flags : IoFlags) :
    ∀ (ws : List Word) (lf : Int) (lp : Option String) (p : Proc) (w : World),
      (redirect_out O flags ws lf lp p w).2.2.2.forkCtr = w.forkCtr ∧
      (redirect_out O flags ws lf lp p w).2.2.2.pipeCtr = w.pipeCtr := by
  intro ws
  induction ws with
  | nil => intro lf lp p w; exact ⟨rfl, rfl⟩
  | cons wd rest ih =>
    intro lf lp p w
    cases rest with
    | nil => simp [redirect_out, sysOpen]
    | cons r rs =>
      rw [redirect_out_cons_eq]
      refine ⟨?_, ?_⟩
      · rw [(ih _ _ _ _).1]
      · rw [(ih _ _ _ _).2]

theorem redirect_err_forkCtr (O : Oracle) (flags : IoFlags) (lf : Int) (lp : Option String) :
    ∀ (ws : List Word) (p : Proc) (w : World),
      (redirect_err O flags lf lp ws p w).2.forkCtr = w.forkCtr ∧
      (redirect_err O flags lf lp ws p w).2.pipeCtr = w.pipeCtr := by
  intro ws
  induction ws with
  | nil => intro p w; exact ⟨rfl, rfl⟩
  | cons wd rest ih =>
    intro p w
    by_cases hcond : (O.realpathOf (O.getWord wd)).isSome = true ∧ lf ≠ -1
        ∧ lp = O.realpathOf (O.getWord wd)
    · simp only [redirect_err, if_pos hcond]
      exact ih _ _
    · simp only [redirect_err, if_neg hcond, sysOpen, sysDup2, sysClose]
      exact ih _ _

theorem redirect_forkCtr (O : Oracle) (s : SimpleCommand) (p : Proc) (w : World) :
    (redirect O s p w).2.forkCtr = w.forkCtr ∧ (redirect O s p w).2.pipeCtr = w.pipeCtr := by
  rcases hin : redirect_in O s.inL p w with ⟨pa, wa⟩
  rcases hout : redirect_out O s.io_flags s.outL (-1) none pa wa with ⟨lf, lp, pb, wb⟩
  rcases herr : redirect_err O s.io_flags lf lp s.errL pb wb with ⟨pe, we⟩
  have h1 := redirect_in_forkCtr O s.inL p w
  have h2 := redirect_out_forkCtr O s.io_flags s.outL (-1) none pa wa
  have h3 := redirect_err_forkCtr O s.io_flags lf lp s.errL pb wb
  rw [hin] at h1
  rw [hout] at h2
  rw [herr] at h3
  have hred : redirect O s p w = (sysClose pe lf, we) := by
    simp only [redirect, hin, hout, herr]
  rw [hred]
  exact ⟨h3.1.trans (h2.1.trans h1.1), h3.2.trans (h2.2.trans h1.2)⟩

theorem shell_cd_ctrs (O : Oracle) (dir : Option Word) (p : Proc) (w : World) :
    (shell_cd O dir p w).2.2.forkCtr = w.forkCtr ∧
    (shell_cd O dir p w).2.2.pipeCtr = w.pipeCtr := by
  unfold shell_cd
  cases dir with
  | none =>
    cases O.home with
    | none => exact ⟨rfl, rfl⟩
    | some h => exact ⟨rfl, rfl⟩
  | some d =>
    dsimp only
    split
    · cases O.oldpwd with
      | none => exact ⟨rfl, rfl⟩
      | some od => exact ⟨rfl, rfl⟩
    · exact ⟨rfl, rfl⟩

theorem external_child_ctrs (O : Oracle) (s : SimpleCommand) (cmd : String)
    (prm : List String) (p : Proc) (w : World) :
    (external_child O s cmd prm p w).2.forkCtr = w.forkCtr ∧
    (external_child O s cmd prm p w).2.pipeCtr = w.pipeCtr := by
  rcases hred : redirect O s p w with ⟨cp, w2⟩
  have h := redirect_forkCtr O s p w
  rw [hred] at h
  by_cases hcmd : cmd = "pwd"
  · subst hcmd
    simp only [external_child, hred, if_pos rfl]
    cases O.getcwdOf p.cwd with
    | some cwd => exact ⟨h.1, h.2⟩
    | none => exact ⟨h.1, h.2⟩
  · simp only [external_child, hred, if_neg hcmd]
    cases hex : O.execOk cmd with
    | true => simp only [if_pos rfl, World.emit]; exact ⟨h.1, h.2⟩
    | false => simp only [Bool.false_eq_true, if_false, World.emit]; exact ⟨h.1, h.2⟩

theorem parse_simple_ctrs_mono (O : Oracle) (s : Option SimpleCommand) (l : Int)
    (f : Option Command) (p : Proc) (w : World) :
    w.forkCtr ≤ (parse_simple O s l f p w).2.2.forkCtr ∧
    (parse_simple O s l f p w).2.2.pipeCtr = w.pipeCtr := by
  cases s with
  | none => exact ⟨le_refl _, rfl⟩
  | some s =>
    by_cases hcd : O.getWord s.verb = "cd"
    · rcases ha : sysDup p 0 with ⟨a, pA⟩
      rcases hb : sysDup pA 1 with ⟨b, pB⟩
      rcases hc : sysDup pB 2 with ⟨c, pC⟩
      rcases hr : redirect O s pC w with ⟨pR, wR⟩
      rcases hs : shell_cd O s.params.head? pR wR with ⟨r, pS, wS⟩
      have h1 := redirect_forkCtr O s pC w
      rw [hr] at h1
      have h2 := shell_cd_ctrs O s.params.head? pR wR
      rw [hs] at h2
      have hsf : wS.forkCtr = w.forkCtr := h2.1.trans h1.1
      have hsp : wS.pipeCtr = w.pipeCtr := h2.2.trans h1.2
      constructor
      · simp [parse_simple, hcd, ha, hb, hc, hr, hs, hsf]
      · simp [parse_simple, hcd, ha, hb, hc, hr, hs, hsp]
    · by_cases hex : O.getWord s.verb = "exit" ∨ O.getWord s.verb = "quit"
      · constructor
        · simp [parse_simple, if_neg hcd, if_pos hex]
        · simp [parse_simple, if_neg hcd, if_pos hex]
      · have hgen : w.forkCtr ≤ (parse_simple_ext O s (O.getWord s.verb) p w).2.2.forkCtr ∧
            (parse_simple_ext O s (O.getWord s.verb) p w).2.2.pipeCtr = w.pipeCtr := by
          rcases hec : external_child O s (O.getWord s.verb) (O.getArgv s)
              p { w with forkCtr := w.forkCtr + 1 } with ⟨code, w2⟩
          have h := external_child_ctrs O s (O.getWord s.verb) (O.getArgv s)
            p { w with forkCtr := w.forkCtr + 1 }
          rw [hec] at h
          have hf2 : w2.forkCtr = w.forkCtr + 1 := h.1
          have hp2 : w2.pipeCtr = w.pipeCtr := h.2
          cases hF : O.forkFails w.forkCtr with
          | true =>
            constructor
            · simp [parse_simple_ext, hF]
            · simp [parse_simple_ext, hF]
          | false =>
            constructor
            · simp [parse_simple_ext, hF, hec, World.emit, hf2]
            · simp [parse_simple_ext, hF, hec, World.emit, hp2]
        cases hnp : s.verb.next_part with
        | some np =>
          by_cases heq : np.string = "="
          · constructor
            · simp [parse_simple, if_neg hcd, if_neg hex, hnp, if_pos heq, World.emit]
            · simp [parse_simple, if_neg hcd, if_neg hex, hnp, if_pos heq, World.emit]
          · simpa [parse_simple, if_neg hcd, if_neg hex, hnp, if_neg heq] using hgen
        | none =>
          simpa [parse_simple, if_neg hcd, if_neg hex, hnp] using hgen

end MiniShell

namespace MiniShell

/-- World projection of the evaluator's `Parallel` case. -/
theorem parse_command_parallel_world (O : Oracle) (c1 c2 : Command) (lv : Int)
    (ff : Option Command) (pz : Proc) (wz : World) :
    (parse_command O (Command.compound Op.parallel c1 c2) lv ff pz wz).2.2
      = (run_in_parallel O
          (fun pa wa => parse_command O c1 (lv + 1 + 1)
            (some (Command.compound Op.parallel c1 c2)) pa wa)
          (fun pa wa => parse_command O c2 (lv + 1 + 1)
            (some (Command.compound Op.parallel c1 c2)) pa wa)
          pz wz).2.2 := rfl

/-- World projection of the evaluator's `Pipe` case. -/
theorem parse_command_pipe_world (O : Oracle) (c1 c2 : Command) (lv : Int)
    (ff : Option Command) (pz : Proc) (wz : World) :
    (parse_command O (Command.compound Op.pipeOp c1 c2) lv ff pz wz).2.2
      = (run_on_pipe O
          (fun pa wa => parse_command O c1 (lv + 1 + 1)
            (some (Command.compound Op.pipeOp c1 c2)) pa wa)
          (fun pa wa => parse_command O c2 (lv + 1 + 1)
            (some (Command.compound Op.pipeOp c1 c2)) pa wa)
          pz wz).2.2 := rfl

theorem run_in_parallel_forkCtr_mono (O : Oracle)
    (k1 k2 : Proc → World → PRes × Proc × World) (p : Proc) (w : World)
    (hk1 : ∀ pz wz, wz.forkCtr ≤ (k1 pz wz).2.2.forkCtr)
    (hk2 : ∀ pz wz, wz.forkCtr ≤ (k2 pz wz).2.2.forkCtr) :
    w.forkCtr ≤ (run_in_parallel O k1 k2 p w).2.2.forkCtr := by
  unfold run_in_parallel
  cases hF : O.forkFails w.forkCtr with
  | true => simp [hF]
  | false =>
    simp only [hF, Bool.false_eq_true, if_false]
    rcases h1 : k1 p { w with forkCtr := w.forkCtr + 1 } with ⟨r1, q1, w1⟩
    have hm1 : w.forkCtr + 1 ≤ w1.forkCtr := by
      have := hk1 p { w with forkCtr := w.forkCtr + 1 }
      rw [h1] at this
      exact this
    simp only [h1]
    cases hF2 : O.forkFails w1.forkCtr with
    | true =>
      simp [hF2]
      omega
    | false =>
      simp only [hF2, Bool.false_eq_true, if_false]
      rcases h2 : k2 p { w1 with forkCtr := w1.forkCtr + 1 } with ⟨r2, q2, w2⟩
      have hm2 : w1.forkCtr + 1 ≤ w2.forkCtr := by
        have := hk2 p { w1 with forkCtr := w1.forkCtr + 1 }
        rw [h2] at this
        exact this
      simp only [h2, World.emit]
      split <;> (dsimp only; omega)

theorem run_on_pipe_forkCtr_mono (O : Oracle)
    (k1 k2 : Proc → World → PRes × Proc × World) (p : Proc) (w : World)
    (hk1 : ∀ pz wz, wz.forkCtr ≤ (k1 pz wz).2.2.forkCtr)
    (hk2 : ∀ pz wz, wz.forkCtr ≤ (k2 pz wz).2.2.forkCtr) :
    w.forkCtr ≤ (run_on_pipe O k1 k2 p w).2.2.forkCtr := by
  unfold run_on_pipe
  cases hP : O.pipeFails w.pipeCtr with
  | true => simp [hP]
  | false =>
    simp only [hP, Bool.false_eq_true, if_false, sysOpenDesc]
    cases hF : O.forkFails w.forkCtr with
    | true => simp [hF]
    | false =>
      simp only [hF, Bool.false_eq_true, if_false]
      rcases h1 : k1 (sysClose (sysDup2 (sysClose { p with fds := (setFd (setFd p.fds
          (allocFd p.fds) (Desc.pipeEnd w.pipeCtr false)) (allocFd (setFd p.fds
          (allocFd p.fds) (Desc.pipeEnd w.pipeCtr false))) (Desc.pipeEnd w.pipeCtr true)) }
          (allocFd p.fds)) (allocFd (setFd p.fds (allocFd p.fds)
          (Desc.pipeEnd w.pipeCtr false))) 1) (allocFd (setFd p.fds (allocFd p.fds)
          (Desc.pipeEnd w.pipeCtr false))))
          { w with pipeCtr := w.pipeCtr + 1, forkCtr := w.forkCtr + 1 } with ⟨r1, q1, w1⟩
      have hm1 : w.forkCtr + 1 ≤ w1.forkCtr := by
        have := hk1 (sysClose (sysDup2 (sysClose { p with fds := (setFd (setFd p.fds
          (allocFd p.fds) (Desc.pipeEnd w.pipeCtr false)) (allocFd (setFd p.fds
          (allocFd p.fds) (Desc.pipeEnd w.pipeCtr false))) (Desc.pipeEnd w.pipeCtr true)) }
          (allocFd p.fds)) (allocFd (setFd p.fds (allocFd p.fds)
          (Desc.pipeEnd w.pipeCtr false))) 1) (allocFd (setFd p.fds (allocFd p.fds)
          (Desc.pipeEnd w.pipeCtr false))))
          { w with pipeCtr := w.pipeCtr + 1, forkCtr := w.forkCtr + 1 }
        rw [h1] at this
        exact this
      simp only [h1]
      cases hF2 : O.forkFails w1.forkCtr with
      | true =>
        simp [hF2]
        omega
      | false =>
        simp only [hF2, Bool.false_eq_true, if_false]
        rcases h2 : k2 (sysClose (sysDup2 (sysClose { p with fds := (setFd (setFd p.fds
            (allocFd p.fds) (Desc.pipeEnd w.pipeCtr false)) (allocFd (setFd p.fds
            (allocFd p.fds) (Desc.pipeEnd w.pipeCtr false))) (Desc.pipeEnd w.pipeCtr true)) }
            (allocFd (setFd p.fds (allocFd p.fds) (Desc.pipeEnd w.pipeCtr false))))
            (allocFd p.fds) 0) (allocFd p.fds))
            { w1 with forkCtr := w1.forkCtr + 1 } with ⟨r2, q2, w2⟩
        have hm2 : w1.forkCtr + 1 ≤ w2.forkCtr := by
          have := hk2 (sysClose (sysDup2 (sysClose { p with fds := (setFd (setFd p.fds
            (allocFd p.fds) (Desc.pipeEnd w.pipeCtr false)) (allocFd (setFd p.fds
            (allocFd p.fds) (Desc.pipeEnd w.pipeCtr false))) (Desc.pipeEnd w.pipeCtr true)) }
            (allocFd (setFd p.fds (allocFd p.fds) (Desc.pipeEnd w.pipeCtr false))))
            (allocFd p.fds) 0) (allocFd p.fds))
            { w1 with forkCtr := w1.forkCtr + 1 }
          rw [h2] at this
          exact this
        simp only [h2, World.emit]
        split <;> (dsimp only; omega)

theorem parse_command_forkCtr_mono (O : Oracle) :
    ∀ (c : Command) (l : Int) (f : Option Command) (p : Proc) (w : World),
      w.forkCtr ≤ (parse_command O c l f p w).2.2.forkCtr := by
  intro c
  induction c with
  | simple scmd =>
    intro l f p w
    exact (parse_simple_ctrs_mono O scmd l f p w).1
  | compound op c1 c2 ih1 ih2 =>
    intro l f p w
    cases op with
    | sequential =>
      rcases h1 : parse_command O c1 (l + 1)
          (some (Command.compound Op.sequential c1 c2)) p w with ⟨r1, p1, w1⟩
      have hm1 : w.forkCtr ≤ w1.forkCtr := by
        have := ih1 (l + 1) (some (Command.compound Op.sequential c1 c2)) p w
        rw [h1] at this
        exact this
      cases r1 with
      | exited v =>
        simp only [parse_command, h1]
        exact hm1
      | ret v =>
        simp only [parse_command, h1]
        exact le_trans hm1 (ih2 _ _ _ _)
    | condNZero =>
      rcases h1 : parse_command O c1 (l + 1)
          (some (Command.compound Op.condNZero c1 c2)) p w with ⟨r1, p1, w1⟩
      have hm1 : w.forkCtr ≤ w1.forkCtr := by
        have := ih1 (l + 1) (some (Command.compound Op.condNZero c1 c2)) p w
        rw [h1] at this
        exact this
      cases r1 with
      | exited v =>
        simp only [parse_command, h1]
        exact hm1
      | ret v =>
        simp only [parse_command, h1]
        by_cases hv : v ≠ 0
        · simp only [if_pos hv]
          exact le_trans hm1 (ih2 _ _ _ _)
        · simp only [if_neg hv]
          exact hm1
    | condZero =>
      rcases h1 : parse_command O c1 (l + 1)
          (some (Command.compound Op.condZero c1 c2)) p w with ⟨r1, p1, w1⟩
      have hm1 : w.forkCtr ≤ w1.forkCtr := by
        have := ih1 (l + 1) (some (Command.compound Op.condZero c1 c2)) p w
        rw [h1] at this
        exact this
      cases r1 with
      | exited v =>
        simp only [parse_command, h1]
        exact hm1
      | ret v =>
        simp only [parse_command, h1]
        by_cases hv : v = 0
        · simp only [if_pos hv]
          exact le_trans hm1 (ih2 _ _ _ _)
        · simp only [if_neg hv]
          exact hm1
    | parallel =>
      rw [show (parse_command O (Command.compound Op.parallel c1 c2) l f p w).2.2
          = (run_in_parallel O
              (fun pa wa => parse_command O c1 (l + 1 + 1)
                (some (Command.compound Op.parallel c1 c2)) pa wa)
              (fun pa wa => parse_command O c2 (l + 1 + 1)
                (some (Command.compound Op.parallel c1 c2)) pa wa)
              p w).2.2 from rfl]
      exact run_in_parallel_forkCtr_mono O _ _ p w
        (fun pz wz => ih1 (l + 1 + 1) (some (Command.compound Op.parallel c1 c2)) pz wz)
        (fun pz wz => ih2 (l + 1 + 1) (some (Command.compound Op.parallel c1 c2)) pz wz)
    | pipeOp =>
      rw [show (parse_command O (Command.compound Op.pipeOp c1 c2) l f p w).2.2
          = (run_on_pipe O
              (fun pa wa => parse_command O c1 (l + 1 + 1)
                (some (Command.compound Op.pipeOp c1 c2)) pa wa)
              (fun pa wa => parse_command O c2 (l + 1 + 1)
                (some (Command.compound Op.pipeOp c1 c2)) pa wa)
              p w).2.2 from rfl]
      exact run_on_pipe_forkCtr_mono O _ _ p w
        (fun pz wz => ih1 (l + 1 + 1) (some (Command.compound Op.pipeOp c1 c2)) pz wz)
        (fun pz wz => ih2 (l + 1 + 1) (some (Command.compound Op.pipeOp c1 c2)) pz wz)

end MiniShell

namespace MiniShell

/-- Under `allOk`, the status a fork-branch child delivers does not
depend on where it is evaluated. -/
theorem childStatus_eq (O : Oracle) (hO : allOk O) (c : Command) (lv : Int)
    (ff : Option Command) (pz : Proc) (wz : World) :
    wait_status (presCode ((parse_command O c lv ff pz wz).1)) = childStatus O c := by
  unfold childStatus
  rw [parse_command_result_state_free O hO c lv 0 ff none pz pInit wz wInit]

theorem emit_emit_trace (X : World) (e1 e2 : Ev) :
    ((X.emit e1).emit e2).trace = X.trace ++ [e1, e2] := by
  simp [World.emit]

/-- **C6**: for every `Parallel` node, when no fork or pipe fails the
evaluator returns status 0 exactly when both branches' children exited
with status 0, and 1 otherwise; and the trace of the run ends with two
`waitpid` events, one per child, so both children are waited for before
the result is produced. -/
theorem parallel_success_iff_both_children_zero (O : Oracle) (hO : allOk O)
    (l r : Command) (level : Int) (father : Option Command) (p : Proc) (w : World) :
    (parse_command O (Command.compound Op.parallel l r) level father p w).1
      = PRes.ret (if childStatus O l = 0 ∧ childStatus O r = 0 then 0 else 1) ∧
    (∃ t pid2, w.forkCtr < pid2 ∧
      (parse_command O (Command.compound Op.parallel l r) level father p w).2.2.trace
        = t ++ [Ev.waitEv w.forkCtr, Ev.waitEv pid2]) := by
  constructor
  · rw [parse_command_parallel_fst, run_in_parallel_unfold O hO]
    dsimp only
    simp only [apply_ite (fun x : Bool × Proc × World => x.1)]
    rw [childStatus_eq O hO l, childStatus_eq O hO r]
    by_cases h1 : childStatus O l = 0 <;> by_cases h2 : childStatus O r = 0 <;>
      simp [h1, h2]
  · rw [parse_command_parallel_world, run_in_parallel_unfold O hO]
    dsimp only
    simp only [apply_ite (fun x : Bool × Proc × World => x.2.2), ite_self]
    refine ⟨_, _, ?_, emit_emit_trace _ _ _⟩
    exact Nat.lt_of_lt_of_le (Nat.lt_succ_self _)
      (parse_command_forkCtr_mono O l (level + 1 + 1)
        (some (Command.compound Op.parallel l r)) p { w with forkCtr := w.forkCtr + 1 })

end MiniShell

namespace MiniShell

/-- **C4**: for every `Pipe` node, when no fork or pipe fails the
evaluator returns status 0 exactly when the right-hand branch's child
exited with status 0, and 1 otherwise — the left branch's status does
not occur in the result — and the trace ends with two `waitpid` events,
one per child, so both children are still waited for. -/
theorem pipe_returns_right_child_status (O : Oracle) (hO : allOk O)
    (l r : Command) (level : Int) (father : Option Command) (p : Proc) (w : World) :
    (parse_command O (Command.compound Op.pipeOp l r) level father p w).1
      = PRes.ret (if childStatus O r = 0 then 0 else 1) ∧
    (∃ t pid2, w.forkCtr < pid2 ∧
      (parse_command O (Command.compound Op.pipeOp l r) level father p w).2.2.trace
        = t ++ [Ev.waitEv w.forkCtr, Ev.waitEv pid2]) := by
  constructor
  · rw [parse_command_pipe_fst, run_on_pipe_unfold O hO]
    dsimp only
    simp only [apply_ite (fun x : Bool × Proc × World => x.1)]
    rw [childStatus_eq O hO r]
    by_cases h2 : childStatus O r = 0 <;> simp [h2]
  · rw [parse_command_pipe_world, run_on_pipe_unfold O hO]
    dsimp only
    simp only [apply_ite (fun x : Bool × Proc × World => x.2.2), ite_self]
    refine ⟨_, _, ?_, emit_emit_trace _ _ _⟩
    exact Nat.lt_of_lt_of_le (Nat.lt_succ_self _)
      (parse_command_forkCtr_mono O l (level + 1 + 1)
        (some (Command.compound Op.pipeOp l r)) _
        { w with pipeCtr := w.pipeCtr + 1, forkCtr := w.forkCtr + 1 })

end MiniShell

namespace MiniShell

theorem wait_status_bounds (v : Int) : 0 ≤ wait_status v ∧ wait_status v ≤ 255 := by
  unfold wait_status
  constructor
  · exact Int.emod_nonneg v (by norm_num)
  · show v % 256 ≤ 255
    have h : v % 256 < 256 := Int.emod_lt_of_pos v (by norm_num)
    omega

theorem parse_simple_retGood (O : Oracle)
    (hput : ∀ str, 0 ≤ O.putenvRet str ∧ O.putenvRet str ≤ 255)
    (s : Option SimpleCommand) (l : Int) (f : Option Command) (p : Proc) (w : World) :
    retGood (parse_simple O s l f p w).1 := by
  cases s with
  | none => exact Or.inr rfl
  | some s =>
    by_cases hcd : O.getWord s.verb = "cd"
    · rcases ha : sysDup p 0 with ⟨a, pA⟩
      rcases hb : sysDup pA 1 with ⟨b, pB⟩
      rcases hc : sysDup pB 2 with ⟨c, pC⟩
      rcases hr : redirect O s pC w with ⟨pR, wR⟩
      rcases hs : shell_cd O s.params.head? pR wR with ⟨r, pS, wS⟩
      have hval : (parse_simple O (some s) l f p w).1 = PRes.ret (if r then 0 else 1) := by
        simp [parse_simple, hcd, ha, hb, hc, hr, hs]
      rw [hval]
      cases r <;> norm_num [retGood]
    · by_cases hex : O.getWord s.verb = "exit" ∨ O.getWord s.verb = "quit"
      · have hval : (parse_simple O (some s) l f p w).1 = PRes.exited 0 := by
          simp [parse_simple, if_neg hcd, if_pos hex]
        rw [hval]
        trivial
      · have hgen : retGood (parse_simple_ext O s (O.getWord s.verb) p w).1 := by
          rcases hec : external_child O s (O.getWord s.verb) (O.getArgv s)
              p { w with forkCtr := w.forkCtr + 1 } with ⟨code, w2⟩
          cases hF : O.forkFails w.forkCtr with
          | true =>
            have hval : (parse_simple_ext O s (O.getWord s.verb) p w).1
                = PRes.ret SHELL_EXIT := by
              simp [parse_simple_ext, hF]
            rw [hval]
            exact Or.inr rfl
          | false =>
            have hval : (parse_simple_ext O s (O.getWord s.verb) p w).1
                = PRes.ret (wait_status code) := by
              simp [parse_simple_ext, hF, hec]
            rw [hval]
            exact Or.inl (wait_status_bounds code)
        cases hnp : s.verb.next_part with
        | some np =>
          by_cases heq : np.string = "="
          · have hval : (parse_simple O (some s) l f p w).1
                = PRes.ret (O.putenvRet (O.getWord s.verb)) := by
              simp [parse_simple, if_neg hcd, if_neg hex, hnp, if_pos heq]
            rw [hval]
            exact Or.inl (hput _)
          · have hval : (parse_simple O (some s) l f p w).1
                = (parse_simple_ext O s (O.getWord s.verb) p w).1 := by
              simp [parse_simple, if_neg hcd, if_neg hex, hnp, if_neg heq]
            rw [hval]
            exact hgen
        | none =>
          have hval : (parse_simple O (some s) l f p w).1
              = (parse_simple_ext O s (O.getWord s.verb) p w).1 := by
            simp [parse_simple, if_neg hcd, if_neg hex, hnp]
          rw [hval]
          exact hgen

theorem parse_command_retGood (O : Oracle)
    (hput : ∀ str, 0 ≤ O.putenvRet str ∧ O.putenvRet str ≤ 255) :
    ∀ (c : Command) (l : Int) (f : Option Command) (p : Proc) (w : World),
      retGood (parse_command O c l f p w).1 := by
  intro c
  induction c with
  | simple scmd =>
    intro l f p w
    exact parse_simple_retGood O hput scmd l f p w
  | compound op c1 c2 ih1 ih2 =>
    intro l f p w
    cases op with
    | sequential =>
      rcases h1 : parse_command O c1 (l + 1)
          (some (Command.compound Op.sequential c1 c2)) p w with ⟨r1, p1, w1⟩
      cases r1 with
      | exited v =>
        simp only [parse_command, h1]
        trivial
      | ret v =>
        simp only [parse_command, h1]
        exact ih2 _ _ _ _
    | condNZero =>
      rcases h1 : parse_command O c1 (l + 1)
          (some (Command.compound Op.condNZero c1 c2)) p w with ⟨r1, p1, w1⟩
      have hg1 : retGood r1 := by
        have := ih1 (l + 1) (some (Command.compound Op.condNZero c1 c2)) p w
        rw [h1] at this
        exact this
      cases r1 with
      | exited v =>
        simp only [parse_command, h1]
        trivial
      | ret v =>
        simp only [parse_command, h1]
        by_cases hv : v ≠ 0
        · simp only [if_pos hv]
          exact ih2 _ _ _ _
        · simp only [if_neg hv]
          exact hg1
    | condZero =>
      rcases h1 : parse_command O c1 (l + 1)
          (some (Command.compound Op.condZero c1 c2)) p w with ⟨r1, p1, w1⟩
      have hg1 : retGood r1 := by
        have := ih1 (l + 1) (some (Command.compound Op.condZero c1 c2)) p w
        rw [h1] at this
        exact this
      cases r1 with
      | exited v =>
        simp only [parse_command, h1]
        trivial
      | ret v =>
        simp only [parse_command, h1]
        by_cases hv : v = 0
        · simp only [if_pos hv]
          exact ih2 _ _ _ _
        · simp only [if_neg hv]
          exact hg1
    | parallel =>
      rw [parse_command_parallel_fst]
      cases (run_in_parallel O
          (fun pa wa => parse_command O c1 (l + 1 + 1)
            (some (Command.compound Op.parallel c1 c2)) pa wa)
          (fun pa wa => parse_command O c2 (l + 1 + 1)
            (some (Command.compound Op.parallel c1 c2)) pa wa) p w).1
      · norm_num [retGood]
      · norm_num [retGood]
    | pipeOp =>
      rw [parse_command_pipe_fst]
      cases (run_on_pipe O
          (fun pa wa => parse_command O c1 (l + 1 + 1)
            (some (Command.compound Op.pipeOp c1 c2)) pa wa)
          (fun pa wa => parse_command O c2 (l + 1 + 1)
            (some (Command.compound Op.pipeOp c1 c2)) pa wa) p w).1
      · norm_num [retGood]
      · norm_num [retGood]

end MiniShell

namespace MiniShell

/-- **C3** (amended): every value the evaluator returns to its caller is
an integer in [0,255] or the `SHELL_EXIT` sentinel, provided every
`putenv` result lies in [0,255].  The unqualified claim fails on the
environment-assignment path, which forwards the raw `putenv` return: a
glibc-style -1 failure value escapes the range, as the separate
counterexample shows. -/
theorem evaluate_status_in_range_of_putenv_in_range (O : Oracle)
    (hput : ∀ str, 0 ≤ O.putenvRet str ∧ O.putenvRet str ≤ 255)
    (oc : Option Command) (level : Int) (father : Option Command) (p : Proc) (w : World) :
    retGood (parse_command_t O oc level father p w).1 := by
  cases oc with
  | none => exact Or.inr rfl
  | some c => exact parse_command_retGood O hput c level father p w

/-- Witness: under the all-success oracle (putenv returns 0) an
assignment command's status is in range. -/
theorem evaluate_status_in_range_of_putenv_in_range_witness :
    (∀ str, 0 ≤ Otest.putenvRet str ∧ Otest.putenvRet str ≤ 255) ∧
      retGood (parse_command_t Otest (some (Command.simple (some asgnCmd)))
        0 none pInit wInit).1 :=
  ⟨fun str => ⟨le_refl 0, show (0:Int) ≤ 255 by norm_num⟩,
   evaluate_status_in_range_of_putenv_in_range Otest (fun str => ⟨le_refl 0, show (0:Int) ≤ 255 by norm_num⟩)
     (some (Command.simple (some asgnCmd))) 0 none pInit wInit⟩

/-- **C3** (counterexample to the unqualified claim): with an oracle
whose `putenv` returns -1 — the glibc failure value — evaluating an
environment assignment returns status -1, which is neither in [0,255]
nor equal to the sentinel. -/
theorem evaluate_status_escapes_range_on_putenv_failure :
    (parse_command_t OputenvFail (some (Command.simple (some asgnCmd)))
        0 none pInit wInit).1 = PRes.ret (-1) ∧
      ¬ retGood (PRes.ret (-1)) := by
  constructor
  · rfl
  · intro h
    simp only [retGood] at h
    rcases h with ⟨h1, h2⟩ | h3
    · exact absurd h1 (by norm_num)
    · exact absurd h3 (by decide)

end MiniShell

namespace MiniShell

/-- Witness for the `Parallel` claim at a concrete input: two `pwd`
leaves under the all-success oracle give overall status 0, and each
child's delivered status is 0. -/
theorem parallel_success_iff_both_children_zero_witness :
    (parse_command Otest (Command.compound Op.parallel
        (Command.simple (some pwdCmd)) (Command.simple (some pwdCmd)))
        0 none pInit wInit).1 = PRes.ret 0 := by
  have h := (parallel_success_iff_both_children_zero Otest
      ⟨fun n => rfl, fun n => rfl⟩
      (Command.simple (some pwdCmd)) (Command.simple (some pwdCmd))
      0 none pInit wInit).1
  have hc : childStatus Otest (Command.simple (some pwdCmd)) = 0 := by decide
  rw [h]
  simp [hc]

/-- Witness for the `Pipe` claim at a concrete input: the left branch's
child delivers the nonzero status 156 (an empty simple command exits
with the sentinel, observed modulo 256) yet the node returns 0 because
the right `pwd` child exited 0 — the left status is ignored. -/
theorem pipe_returns_right_child_status_witness :
    childStatus Otest (Command.simple none) = 156 ∧
    (parse_command Otest (Command.compound Op.pipeOp
        (Command.simple none) (Command.simple (some pwdCmd)))
        0 none pInit wInit).1 = PRes.ret 0 := by
  refine ⟨by decide, ?_⟩
  have h := (pipe_returns_right_child_status Otest
      ⟨fun n => rfl, fun n => rfl⟩
      (Command.simple none) (Command.simple (some pwdCmd))
      0 none pInit wInit).1
  have hc : childStatus Otest (Command.simple (some pwdCmd)) = 0 := by decide
  rw [h]
  simp [hc]

end MiniShell
